import Mathlib

/-!
# Verification of the rufus crawl-and-score engine

Shallow embedding of `src/rufus/scraper.py` (class `WebScraper`) and the
relevant part of `src/rufus/client.py` (`RufusClient.scrape_with_cumulative_score`).

Modelling conventions:
* Python strings are `List Char` (ASCII inputs; `str.lower`, `str.strip`,
  `str.count`, `in`, `startswith`, `split('\n')` are reimplemented below
  with CPython semantics).
* CPython's `int(x * 0.7)`, `int(x * 1.2)`, `int(x * 1.5)` on a non-negative
  integer `x` are modelled bit-exactly (`intMulFloat`): `x` is converted to
  the nearest binary64 (rounding to 53 significant bits, ties to the even
  mantissa), multiplied by the binary64 constant (`double(0.7) = m07/2^53`,
  `double(1.2) = m12/2^52`, `double(1.5) = m15/2^52`), the product rounded
  to binary64 again and the result truncated toward zero.  So for example
  `int(90 * 0.7) = 62`, not `⌊90 · 7/10⌋ = 63`, because `double(0.7) < 7/10`.
  The model agrees with CPython for every `x < 2^1024` whose scaled product
  stays within the binary64 range; past that bound CPython raises
  `OverflowError` (caught by the crawl loop's `try/except`, skipping the
  page) — reaching it would need a base score, hence a content string,
  longer than 2^1024 characters.
* The page renderer (playwright: `context.new_page()` + `page.goto` +
  `_is_valid_page` / `_extract_content` / `_get_page_title` /
  `_extract_links`' DOM reads) is an external capability, modelled as a
  function `List Char → Option Page`: `none` is a navigation failure or
  exception (caught by the `try/except` around the loop body), `some p`
  carries the validity signal, title, body text and raw hrefs.
* The Origin Context (`self.base_url`, `self.base_domain`, derived once from
  the seed in lines 31–43 of scraper.py via `urlparse`) is passed to the
  crawl as two parameters.
* `depth` is a `Nat` (it starts at 0 and only ever gets +1); the three
  configuration integers `max_depth`, `min_score`,
  `cumulative_score_threshold` are `Int` as in Python.
-/

set_option maxRecDepth 10000

/-- ASCII `str.lower` on one character. -/
def pyLower (c : Char) : Char :=
  if 'A' ≤ c ∧ c ≤ 'Z' then Char.ofNat (c.toNat + 32) else c

/-- Python `s.lower()`. -/
def lowerStr (s : List Char) : List Char := s.map pyLower

/-- Python `pat in s` (substring containment; the empty string is in every string). -/
def isSubstr (pat : List Char) : List Char → Bool
  | [] => pat.isEmpty
  | c :: cs => pat.isPrefixOf (c :: cs) || isSubstr pat cs

/-- Auxiliary scan for `countOcc`, with explicit fuel and an accumulator
(tail-recursive so the kernel can evaluate it on long strings). -/
def countOccAux (pat : List Char) : Nat → Nat → List Char → Nat
  | 0, acc, _ => acc
  | _ + 1, acc, [] => acc
  | fuel + 1, acc, c :: cs =>
    if pat.isPrefixOf (c :: cs) then
      countOccAux pat fuel (acc + 1) (cs.drop (pat.length - 1))
    else countOccAux pat fuel acc cs

/-- Python `s.count(pat)`: non-overlapping occurrences scanned left to right;
an empty pattern counts `len(s) + 1`. -/
def countOcc (pat s : List Char) : Nat :=
  if pat.isEmpty then s.length + 1 else countOccAux pat s.length 0 s

/-- A regex `\w` character for the ASCII inputs we model. -/
def isWordChar (c : Char) : Bool := c.isAlphanum || c == '_'

/-- Word-ness of the character standing at the current scan position (the
position past the end of the string is non-word). -/
def wordHead : List Char → Bool
  | [] => false
  | c :: _ => isWordChar c

/-- Scan of `re.findall` for the pattern `\b<pat>\b`, counting non-overlapping
matches left to right.  `prevW` is the word-ness of the character just before
the current position (non-word at the start of the string), so `\b` holds at
the current position iff `prevW != wordHead s`; after a successful match of a
non-empty `pat` the character before the new position is the last character of
`pat` (word-ness `patLastW`).  A zero-width pattern (`\b\b`, i.e. `\b`) matches
at every boundary and the scan advances one character. -/
def wbAux (pat : List Char) (patLastW : Bool) : Nat → Nat → Bool → List Char → Nat
  | 0, acc, _, _ => acc
  | fuel + 1, acc, prevW, s =>
    if pat.isEmpty then
      wbAux pat patLastW fuel (if prevW != wordHead s then acc + 1 else acc) (wordHead s) s.tail
    else
      if (prevW != wordHead s) && pat.isPrefixOf s
          && (patLastW != wordHead (s.drop pat.length)) then
        wbAux pat patLastW fuel (acc + 1) patLastW (s.drop pat.length)
      else wbAux pat patLastW fuel acc (wordHead s) s.tail

/-- `len(re.findall(r'\b' + re.escape(pat) + r'\b', s))`. -/
def wbCount (pat s : List Char) : Nat :=
  wbAux pat (isWordChar (pat.getLastD ' ')) (s.length + 1) 0 false s

/-- Tail-recursive worker for `splitOnChar`: `cur` is the current field
reversed, `acc` the finished fields reversed. -/
def splitOnCharAux (sep : Char) : List Char → List (List Char) → List Char → List (List Char)
  | cur, acc, [] => (cur.reverse :: acc).reverse
  | cur, acc, c :: cs =>
    if c == sep then splitOnCharAux sep [] (cur.reverse :: acc) cs
    else splitOnCharAux sep (c :: cur) acc cs

/-- Python `s.split('\n')`-style split at one separator character
(`''.split(sep) = ['']`, and a trailing separator yields a trailing `''`). -/
def splitOnChar (sep : Char) (s : List Char) : List (List Char) :=
  splitOnCharAux sep [] [] s

/-- The ASCII whitespace stripped by Python `str.strip()`. -/
def isPySpace (c : Char) : Bool :=
  c == ' ' || c == '\t' || c == '\n' || c == '\r' || c == Char.ofNat 11 || c == Char.ofNat 12

/-- Python `s.strip()`. -/
def stripPy (s : List Char) : List Char :=
  ((s.dropWhile isPySpace).reverse.dropWhile isPySpace).reverse

/-- Fuel-driven scan for the binary64 rounding shift: the least `k` with
`m / 2^k < 2^53`.  Fuel 1024 covers every `m < 2^1077`, hence every product
CPython's float arithmetic can form from an in-range conversion. -/
def shiftAux : Nat → Nat → Nat
  | 0, _ => 0
  | fuel + 1, m => if m < 2 ^ 53 then 0 else shiftAux fuel (m / 2) + 1

/-- The rounding shift of a non-negative integer: 0 when it is exactly
representable in binary64, else the number of low bits rounded away. -/
def shiftAmt (p : Nat) : Nat := shiftAux 1024 p

/-- A non-negative integer correctly rounded to the nearest binary64 value
(53 significant bits, ties to the even mantissa), returned as the exact
integer value of that double. -/
def round53 (p : Nat) : Nat :=
  let k := shiftAmt p
  if k = 0 then p
  else
    let q := p / 2 ^ k
    let r := p % 2 ^ k
    let h := 2 ^ (k - 1)
    (if h < r then q + 1 else if r < h then q else if q % 2 = 0 then q else q + 1) * 2 ^ k

/-- CPython `int(x * c)` for a non-negative `int` `x` and a float constant
`c = m / 2^s`: `x` is converted to binary64 (one rounding), the exact product
with `c` is rounded to binary64 again, and `int` truncates toward zero. -/
def intMulFloat (x m s : Nat) : Nat := round53 (round53 x * m) / 2 ^ s

/-- Numerator of the binary64 value nearest 0.7: `double(0.7) = m07 / 2^53`
(slightly below 7/10). -/
def m07 : Nat := 6305039478318694

/-- Numerator of the binary64 value nearest 1.2: `double(1.2) = m12 / 2^52`
(slightly below 6/5). -/
def m12 : Nat := 5404319552844595

/-- Numerator of 1.5, exactly representable: `double(1.5) = m15 / 2^52`. -/
def m15 : Nat := 6755399441055744

/-- `WebScraper._check_relevance` (scraper.py lines 259–307), for a given
keyword list (`self.keywords`).  Returns the integer relevance score. -/
def check_relevance (keywords : List (List Char)) (content : List Char) : Nat :=
  if content.length < 100 then 0
  else
    let contentLower := lowerStr content
    let base := keywords.foldl (fun acc kw =>
      let kwl := lowerStr kw
      let a1 := acc + countOcc kwl contentLower * 2
      let a2 := a1 + wbCount kwl contentLower * 3
      let a3 := if isSubstr kwl (contentLower.take 500) then a2 + 10 else a2
      (splitOnChar '\n' content).foldl (fun b line =>
        if isSubstr kwl (stripPy (lowerStr line)) ∧ line.length < 100 then b + 15
        else b) a3) 0
    let s1 := if content.length < 500 then intMulFloat base m07 53 else base
    let s2 := if content.length > 1000 then intMulFloat s1 m12 52 else s1
    if content.length > 3000 then intMulFloat s2 m15 52 else s2

/-- `WebScraper._normalize_url` (scraper.py lines 166–187), as a pure function
of the href and the crawl's `self.base_url`. -/
def normalize_url (baseUrl url : List Char) : List Char :=
  if url = [] then []
  else if "javascript:".data.isPrefixOf url || "mailto:".data.isPrefixOf url
      || "tel:".data.isPrefixOf url || "#".data.isPrefixOf url then []
  else if !("http://".data.isPrefixOf url || "https://".data.isPrefixOf url) then
    if "//".data.isPrefixOf url then "https:".data ++ url
    else if "/".data.isPrefixOf url then baseUrl ++ url
    else baseUrl ++ "/".data ++ url
  else url

/-! ## Helper lemmas about `List.isPrefixOf` and `normalize_url` -/

theorem isPrefixOf_cons_ne {a b : Char} {as bs : List Char} (h : a ≠ b) :
    (a :: as).isPrefixOf (b :: bs) = false := by
  simp [List.isPrefixOf, h]

theorem isPrefixOf_self_append (p s : List Char) : p.isPrefixOf (p ++ s) = true := by
  rw [List.isPrefixOf_iff_prefix]
  exact List.prefix_append p s

theorem isPrefixOf_append_right {p b : List Char} (s : List Char)
    (h : p.isPrefixOf b = true) : p.isPrefixOf (b ++ s) = true := by
  rw [List.isPrefixOf_iff_prefix] at h ⊢
  exact h.trans (List.prefix_append b s)

/-- Unfolding of `_normalize_url` on a non-empty, non-pseudo-scheme href. -/
theorem normalize_url_core {u : List Char} (b : List Char) (h0 : u ≠ [])
    (hps : ("javascript:".data.isPrefixOf u || "mailto:".data.isPrefixOf u
      || "tel:".data.isPrefixOf u || "#".data.isPrefixOf u) = false) :
    normalize_url b u =
      if ("http://".data.isPrefixOf u || "https://".data.isPrefixOf u) = false then
        (if "//".data.isPrefixOf u then "https:".data ++ u
         else if "/".data.isPrefixOf u then b ++ u
         else b ++ "/".data ++ u)
      else u := by
  rw [normalize_url, if_neg h0, if_neg (by rw [hps]; decide)]
  by_cases habs : ("http://".data.isPrefixOf u || "https://".data.isPrefixOf u) = true
  · rw [if_neg (by rw [habs]; decide), if_neg (by rw [habs]; decide)]
  · have habs' : ("http://".data.isPrefixOf u || "https://".data.isPrefixOf u) = false :=
      Bool.eq_false_iff.mpr habs
    rw [if_pos (by rw [habs']; decide), if_pos habs']

/-- `_normalize_url` maps an absolute `http(s)://` URL to itself. -/
theorem normalize_url_httpish {v : List Char} (b : List Char)
    (hv : "http://".data.isPrefixOf v = true ∨ "https://".data.isPrefixOf v = true) :
    normalize_url b v = v := by
  have hh : ∃ t, v = 'h' :: t := by
    rcases hv with hv | hv <;> rw [List.isPrefixOf_iff_prefix] at hv <;>
      rcases hv with ⟨t, ht⟩ <;> exact ⟨_, ht.symm⟩
  obtain ⟨t, rfl⟩ := hh
  have habs : ("http://".data.isPrefixOf ('h' :: t) || "https://".data.isPrefixOf ('h' :: t))
      = true := by rcases hv with hv | hv <;> simp [hv]
  rw [normalize_url_core b (by simp)
    (by rw [show ("javascript:".data) = 'j' :: "avascript:".data from rfl,
          show ("mailto:".data) = 'm' :: "ailto:".data from rfl,
          show ("tel:".data) = 't' :: "el:".data from rfl,
          show ("#".data) = '#' :: ([] : List Char) from rfl,
          isPrefixOf_cons_ne (show 'j' ≠ 'h' by decide),
          isPrefixOf_cons_ne (show 'm' ≠ 'h' by decide),
          isPrefixOf_cons_ne (show 't' ≠ 'h' by decide),
          isPrefixOf_cons_ne (show '#' ≠ 'h' by decide)]
        rfl),
    if_neg (by rw [habs]; decide)]

/-- Every non-invalid output of `_normalize_url` starts with `http://` or
`https://`, provided the crawl's `base_url` does. -/
theorem normalize_url_output_httpish {b : List Char}
    (hb : "http://".data.isPrefixOf b = true ∨ "https://".data.isPrefixOf b = true)
    (u : List Char) (h : normalize_url b u ≠ []) :
    "http://".data.isPrefixOf (normalize_url b u) = true
      ∨ "https://".data.isPrefixOf (normalize_url b u) = true := by
  by_cases h0 : u = []
  · simp [normalize_url, h0] at h
  by_cases hps : ("javascript:".data.isPrefixOf u || "mailto:".data.isPrefixOf u
      || "tel:".data.isPrefixOf u || "#".data.isPrefixOf u) = true
  · exfalso; apply h; rw [normalize_url, if_neg h0, if_pos (by simpa using hps)]
  have hps' : ("javascript:".data.isPrefixOf u || "mailto:".data.isPrefixOf u
      || "tel:".data.isPrefixOf u || "#".data.isPrefixOf u) = false :=
    Bool.eq_false_iff.mpr hps
  rw [normalize_url_core b h0 hps']
  by_cases habs : ("http://".data.isPrefixOf u || "https://".data.isPrefixOf u) = true
  · rw [if_neg (by rw [habs]; decide)]
    simpa using habs
  · have habs' : ("http://".data.isPrefixOf u || "https://".data.isPrefixOf u) = false :=
      Bool.eq_false_iff.mpr habs
    rw [if_pos habs']
    by_cases hpp : "//".data.isPrefixOf u = true
    · rw [if_pos hpp]
      right
      rw [List.isPrefixOf_iff_prefix] at hpp ⊢
      rcases hpp with ⟨t, rfl⟩
      exact ⟨t, rfl⟩
    · rw [if_neg hpp]
      by_cases hsl : "/".data.isPrefixOf u = true
      · rw [if_pos hsl]
        rcases hb with hb | hb
        · exact Or.inl (isPrefixOf_append_right u hb)
        · exact Or.inr (isPrefixOf_append_right u hb)
      · rw [if_neg hsl]
        rcases hb with hb | hb
        · exact Or.inl (isPrefixOf_append_right u (isPrefixOf_append_right "/".data hb))
        · exact Or.inr (isPrefixOf_append_right u (isPrefixOf_append_right "/".data hb))

/-- Shared idempotence lemma: over an `http(s)://` base URL, re-normalizing a
non-invalid normalized URL is the identity. -/
theorem normalize_url_idem {b : List Char}
    (hb : "http://".data.isPrefixOf b = true ∨ "https://".data.isPrefixOf b = true)
    (u : List Char) (h : normalize_url b u ≠ []) :
    normalize_url b (normalize_url b u) = normalize_url b u :=
  normalize_url_httpish b (normalize_url_output_httpish hb u h)

/-- The four pseudo-scheme prefix tests all fail on a href whose first
character differs from `j`, `m`, `t` and `#`. -/
theorem pseudo_prefixes_false {c : Char} (t : List Char)
    (hj : 'j' ≠ c) (hm : 'm' ≠ c) (ht : 't' ≠ c) (hh : '#' ≠ c) :
    ("javascript:".data.isPrefixOf (c :: t) || "mailto:".data.isPrefixOf (c :: t)
      || "tel:".data.isPrefixOf (c :: t) || "#".data.isPrefixOf (c :: t)) = false := by
  rw [show ("javascript:".data) = 'j' :: "avascript:".data from rfl,
    show ("mailto:".data) = 'm' :: "ailto:".data from rfl,
    show ("tel:".data) = 't' :: "el:".data from rfl,
    show ("#".data) = '#' :: ([] : List Char) from rfl,
    isPrefixOf_cons_ne hj, isPrefixOf_cons_ne hm, isPrefixOf_cons_ne ht,
    isPrefixOf_cons_ne hh]
  rfl

/-- The two absolute-scheme prefix tests fail on a href whose first character
is not `h`. -/
theorem httpish_prefixes_false {c : Char} (t : List Char) (hc : 'h' ≠ c) :
    ("http://".data.isPrefixOf (c :: t) || "https://".data.isPrefixOf (c :: t)) = false := by
  rw [show ("http://".data) = 'h' :: "ttp://".data from rfl,
    show ("https://".data) = 'h' :: "ttps://".data from rfl,
    isPrefixOf_cons_ne hc, isPrefixOf_cons_ne hc]
  rfl

/-- C7: `_normalize_url` (scraper.py lines 166–187) applies the §4.1 rules in
order: empty and `javascript:`/`mailto:`/`tel:`/fragment hrefs yield the
invalid (empty) sentinel; protocol-relative `//host/path` becomes
`https://host/path`; root-relative `/path` becomes `baseURL + "/path"`; a bare
`path` becomes `baseURL + "/" + path`; an already-absolute `http(s)` URL is
returned unchanged.  With base `https://a.com`: `"#"` is invalid, `"/path" ↦
https://a.com/path`, `"//cdn.com/x" ↦ https://cdn.com/x`, `"http://a.com/x"`
unchanged. -/
theorem C7_normalize_url_rules :
    (∀ b, normalize_url b [] = []) ∧
    (∀ b s, normalize_url b ("javascript:".data ++ s) = []) ∧
    (∀ b s, normalize_url b ("mailto:".data ++ s) = []) ∧
    (∀ b s, normalize_url b ("tel:".data ++ s) = []) ∧
    (∀ b s, normalize_url b ('#' :: s) = []) ∧
    (∀ b s, normalize_url b ('/' :: '/' :: s) = "https://".data ++ s) ∧
    (∀ b s, "//".data.isPrefixOf ('/' :: s) = false →
      normalize_url b ('/' :: s) = b ++ '/' :: s) ∧
    (∀ b u, u ≠ [] →
      ("javascript:".data.isPrefixOf u || "mailto:".data.isPrefixOf u
        || "tel:".data.isPrefixOf u || "#".data.isPrefixOf u) = false →
      ("http://".data.isPrefixOf u || "https://".data.isPrefixOf u) = false →
      "/".data.isPrefixOf u = false →
      normalize_url b u = b ++ "/".data ++ u) ∧
    (∀ b u, ("http://".data.isPrefixOf u || "https://".data.isPrefixOf u) = true →
      normalize_url b u = u) ∧
    (normalize_url "https://a.com".data "#".data = [] ∧
      normalize_url "https://a.com".data "/path".data = "https://a.com/path".data ∧
      normalize_url "https://a.com".data "//cdn.com/x".data = "https://cdn.com/x".data ∧
      normalize_url "https://a.com".data "http://a.com/x".data = "http://a.com/x".data) := by
  refine ⟨fun b => by simp [normalize_url],
    fun b s => ?_, fun b s => ?_, fun b s => ?_, fun b s => ?_,
    fun b s => ?_, fun b s hpp => ?_, fun b u h0 hps habs hsl => ?_,
    fun b u habs => ?_, by decide, by decide, by decide, by decide⟩
  · rw [normalize_url, if_neg (by simp), if_pos (by simp [isPrefixOf_self_append])]
  · rw [normalize_url, if_neg (by simp), if_pos (by simp [isPrefixOf_self_append])]
  · rw [normalize_url, if_neg (by simp), if_pos (by simp [isPrefixOf_self_append])]
  · rw [normalize_url, if_neg (by simp),
      if_pos (by rw [show ("#".data) = '#' :: ([] : List Char) from rfl]
                 simp [List.isPrefixOf])]
  · rw [normalize_url_core b (by simp)
        (pseudo_prefixes_false _ (by decide) (by decide) (by decide) (by decide)),
      if_pos (httpish_prefixes_false _ (by decide)),
      if_pos (by rw [show ("//".data) = '/' :: '/' :: ([] : List Char) from rfl]
                 simp [List.isPrefixOf])]
    rfl
  · rw [normalize_url_core b (by simp)
        (pseudo_prefixes_false _ (by decide) (by decide) (by decide) (by decide)),
      if_pos (httpish_prefixes_false _ (by decide)),
      if_neg (by rw [hpp]; decide),
      if_pos (by rw [show ("/".data) = '/' :: ([] : List Char) from rfl]
                 simp [List.isPrefixOf])]
  · obtain ⟨c, t, rfl⟩ := List.exists_cons_of_ne_nil h0
    have hc : '/' ≠ c := by
      intro he
      rw [show ("/".data) = '/' :: ([] : List Char) from rfl, he] at hsl
      simp [List.isPrefixOf] at hsl
    have hpp' : "//".data.isPrefixOf (c :: t) = false := by
      rw [show ("//".data) = '/' :: '/' :: ([] : List Char) from rfl,
        isPrefixOf_cons_ne hc]
    rw [normalize_url_core b (by simp) hps, if_pos habs,
      if_neg (by rw [hpp']; decide), if_neg (by rw [hsl]; decide)]
  · exact normalize_url_httpish b (by simpa using habs)

/-- Witness for C7: the bare-path rule applied at the concrete href `home`
(whose first character coincides with that of `http://`). -/
theorem C7_witness :
    normalize_url "https://b.org".data "home".data
      = "https://b.org".data ++ "/".data ++ "home".data := by
  obtain ⟨-, -, -, -, -, -, -, h8, -⟩ := C7_normalize_url_rules
  exact h8 "https://b.org".data "home".data (by decide) (by decide) (by decide) (by decide)

/-- C10 counterexample: with the Origin Context of the seed `ftp://a.com/x`
(`base_url = "ftp://a.com"`, as produced by scraper.py lines 31–35),
`_normalize_url "/x"` yields the non-empty `"ftp://a.com/x"`, but normalizing
that output again changes it — `_normalize_url` is not idempotent for every
reachable Origin Context. -/
theorem C10_cex :
    normalize_url "ftp://a.com".data "/x".data ≠ [] ∧
      normalize_url "ftp://a.com".data (normalize_url "ftp://a.com".data "/x".data)
        ≠ normalize_url "ftp://a.com".data "/x".data := by
  constructor
  · decide
  · decide

/-- C10 (amended): `_normalize_url` is idempotent on every non-invalid output
provided the crawl's `base_url` itself starts with `http://` or `https://`
(which holds for every seed URL with an `http(s)` scheme, and for schemeless
seeds, whose base gets the `https://` prefix; an `ftp://` seed violates it). -/
theorem C10_normalize_idempotent (b u : List Char)
    (hb : "http://".data.isPrefixOf b = true ∨ "https://".data.isPrefixOf b = true)
    (h : normalize_url b u ≠ []) :
    normalize_url b (normalize_url b u) = normalize_url b u :=
  normalize_url_idem hb u h

/-- Witness for C10: idempotence at base `https://a.com`, href `/p`. -/
theorem C10_witness :
    normalize_url "https://a.com".data (normalize_url "https://a.com".data "/p".data)
      = normalize_url "https://a.com".data "/p".data :=
  C10_normalize_idempotent "https://a.com".data "/p".data
    (Or.inr (by decide)) (by decide)

/-! ## Relevance scorer: reference definition and the §4.2 claims (C3) -/

/-- Reference scorer following the words of spec §4.2 for the per-keyword
components (2·occurrences + 3·word-boundary matches + 10 for an appearance in
the first 500 characters + 15 per sub-100-character line containing the
keyword, summed over keywords), with the multiplier behaviour the code
actually has: the length adjustments are applied once to the accumulated
total, in sequence, each multiplication performed in binary64 floating point
and truncated to an integer before the next, the `×1.2` and `×1.5` bonuses
compounding when the length exceeds 3000. -/
def spec_score (keywords : List (List Char)) (content : List Char) : Nat :=
  if content.length < 100 then 0
  else
    let total := (keywords.map (fun kw =>
      2 * countOcc (lowerStr kw) (lowerStr content)
        + 3 * wbCount (lowerStr kw) (lowerStr content)
        + (if isSubstr (lowerStr kw) ((lowerStr content).take 500) then 10 else 0)
        + 15 * (splitOnChar '\n' content).countP (fun line =>
            decide (isSubstr (lowerStr kw) (stripPy (lowerStr line))
              ∧ line.length < 100)))).sum
    let t1 := if content.length < 500 then intMulFloat total m07 53 else total
    let t2 := if content.length > 1000 then intMulFloat t1 m12 52 else t1
    if content.length > 3000 then intMulFloat t2 m15 52 else t2

theorem foldl_lines_eq (Q : List Char → Prop) [DecidablePred Q] :
    ∀ (ls : List (List Char)) (a : Nat),
      ls.foldl (fun b line => if Q line then b + 15 else b) a
        = a + 15 * ls.countP (fun line => decide (Q line)) := by
  intro ls
  induction ls with
  | nil => intro a; simp
  | cons x xs ih =>
    intro a
    by_cases hx : Q x
    · have hd : decide (Q x) = true := decide_eq_true hx
      simp only [List.foldl_cons, if_pos hx, ih, List.countP_cons, hd]
      norm_num
      omega
    · have hd : decide (Q x) = false := decide_eq_false hx
      simp only [List.foldl_cons, if_neg hx, ih, List.countP_cons, hd]
      norm_num

theorem crel_fold_eq (c : List Char) :
    ∀ (l : List (List Char)) (a : Nat),
      l.foldl (fun acc kw =>
          (splitOnChar '\n' c).foldl (fun b line =>
              if isSubstr (lowerStr kw) (stripPy (lowerStr line)) ∧ line.length < 100 then
                b + 15
              else b)
            (if isSubstr (lowerStr kw) ((lowerStr c).take 500) then
              acc + countOcc (lowerStr kw) (lowerStr c) * 2
                + wbCount (lowerStr kw) (lowerStr c) * 3 + 10
             else
              acc + countOcc (lowerStr kw) (lowerStr c) * 2
                + wbCount (lowerStr kw) (lowerStr c) * 3)) a
        = a + (l.map (fun kw =>
            2 * countOcc (lowerStr kw) (lowerStr c)
              + 3 * wbCount (lowerStr kw) (lowerStr c)
              + (if isSubstr (lowerStr kw) ((lowerStr c).take 500) then 10 else 0)
              + 15 * (splitOnChar '\n' c).countP (fun line =>
                  decide (isSubstr (lowerStr kw) (stripPy (lowerStr line))
                    ∧ line.length < 100)))).sum := by
  intro l
  induction l with
  | nil => intro a; simp
  | cons kw kws ih =>
    intro a
    rw [List.foldl_cons, ih, List.map_cons, List.sum_cons,
      foldl_lines_eq (fun line => isSubstr (lowerStr kw) (stripPy (lowerStr line)) = true
        ∧ line.length < 100)]
    by_cases hs : isSubstr (lowerStr kw) ((lowerStr c).take 500) = true
    · rw [if_pos hs, if_pos hs]
      omega
    · rw [if_neg hs, if_neg hs]
      omega

/-- The source scorer agrees with the §4.2 reference scorer on every input. -/
theorem check_relevance_eq_spec_score (kws : List (List Char)) (c : List Char) :
    check_relevance kws c = spec_score kws c := by
  by_cases h100 : c.length < 100
  · simp [check_relevance, spec_score, h100]
  · simp only [check_relevance, spec_score, if_neg h100]
    rw [crel_fold_eq c kws 0, Nat.zero_add]

/-! ### Step lemmas for evaluating the scanners on long structured strings
(the kernel cannot reduce a 4000-step recursion, so the concrete §8 scorer
value is computed by rewriting). -/

theorem countOccAux_nil (pat : List Char) (F acc : Nat) : countOccAux pat F acc [] = acc := by
  cases F <;> rfl

theorem countOccAux_match {pat : List Char} (hne : pat ≠ []) {F : Nat} (hF : F ≠ 0)
    {acc : Nat} {s : List Char} :
    countOccAux pat F acc (pat ++ s) = countOccAux pat (F - 1) (acc + 1) s := by
  obtain ⟨F', rfl⟩ := Nat.exists_eq_succ_of_ne_zero hF
  obtain ⟨c, p', rfl⟩ := List.exists_cons_of_ne_nil hne
  have hpre : (c :: p').isPrefixOf ((c :: p') ++ s) = true := isPrefixOf_self_append _ _
  rw [show ((c :: p') ++ s) = c :: (p' ++ s) from rfl] at hpre
  show countOccAux (c :: p') (F' + 1) acc (c :: (p' ++ s)) = _
  simp only [countOccAux, hpre, if_pos, List.length_cons, Nat.add_sub_cancel,
    List.drop_left, Nat.succ_sub_one]

theorem countOccAux_skip {pat : List Char} {c : Char} {cs : List Char}
    (h : pat.isPrefixOf (c :: cs) = false) {F acc : Nat} :
    countOccAux pat F acc (c :: cs) = countOccAux pat (F - 1) acc cs := by
  cases F with
  | zero => rfl
  | succ F' => simp [countOccAux, h]

theorem countOccAux_skip_replicate {pat : List Char} {a : Char}
    (h : ∀ l, pat.isPrefixOf (a :: l) = false) :
    ∀ (n : Nat) {F acc : Nat} {s : List Char},
      countOccAux pat F acc (List.replicate n a ++ s) = countOccAux pat (F - n) acc s := by
  intro n
  induction n with
  | zero => intro F acc s; simp
  | succ n ih =>
    intro F acc s
    rw [List.replicate_succ, List.cons_append, countOccAux_skip (h _), ih,
      show F - 1 - n = F - (n + 1) from by omega]

theorem wbAux_nil {pat : List Char} (hne : pat ≠ []) (lw : Bool) :
    ∀ (F : Nat) (acc : Nat) (pw : Bool), wbAux pat lw F acc pw [] = acc := by
  have hpre : pat.isPrefixOf [] = false := by
    obtain ⟨c, p', rfl⟩ := List.exists_cons_of_ne_nil hne
    rfl
  have hemp : pat.isEmpty = false := by
    obtain ⟨c, p', rfl⟩ := List.exists_cons_of_ne_nil hne
    rfl
  intro F
  induction F with
  | zero => intro acc pw; rfl
  | succ F ih =>
    intro acc pw
    simp only [wbAux, hemp, hpre, Bool.false_eq_true, if_false, Bool.and_false,
      Bool.false_and, Bool.and_self]
    exact ih acc (wordHead [])

theorem wbAux_skip {pat : List Char} (hemp : pat.isEmpty = false) {lw pw : Bool} {c : Char}
    {cs : List Char}
    (hcond : ((pw != wordHead (c :: cs)) && pat.isPrefixOf (c :: cs)
        && (lw != wordHead ((c :: cs).drop pat.length))) = false)
    {F acc : Nat} :
    wbAux pat lw F acc pw (c :: cs) = wbAux pat lw (F - 1) acc (isWordChar c) cs := by
  cases F with
  | zero => rfl
  | succ F' =>
    simp only [wbAux, hemp, hcond, Bool.false_eq_true, if_false, Nat.succ_sub_one]
    rfl

theorem wbAux_skip_noprefix {pat : List Char} (hemp : pat.isEmpty = false) {lw pw : Bool}
    {c : Char} {cs : List Char} (h : pat.isPrefixOf (c :: cs) = false) {F acc : Nat} :
    wbAux pat lw F acc pw (c :: cs) = wbAux pat lw (F - 1) acc (isWordChar c) cs :=
  wbAux_skip hemp (by simp [h]) 

theorem wbAux_match {pat : List Char} {c : Char} {p' : List Char} (hp : pat = c :: p')
    (hw : isWordChar c = true) {lw : Bool} {F : Nat} (hF : F ≠ 0) {acc : Nat}
    {rest : List Char} (hafter : (lw != wordHead rest) = true) :
    wbAux pat lw F acc false (pat ++ rest) = wbAux pat lw (F - 1) (acc + 1) lw rest := by
  obtain ⟨F', rfl⟩ := Nat.exists_eq_succ_of_ne_zero hF
  subst hp
  have hpre : (c :: p').isPrefixOf ((c :: p') ++ rest) = true := isPrefixOf_self_append _ _
  have hdrop : ((c :: p') ++ rest).drop (c :: p').length = rest := List.drop_left _ _
  have hhead : wordHead ((c :: p') ++ rest) = true := by
    rw [show ((c :: p') ++ rest) = c :: (p' ++ rest) from rfl]
    simpa [wordHead] using hw
  have hcond : ((false != wordHead ((c :: p') ++ rest)) && (c :: p').isPrefixOf ((c :: p') ++ rest)
      && (lw != wordHead (((c :: p') ++ rest).drop (c :: p').length))) = true := by
    rw [hpre, hdrop, hhead, hafter]
    rfl
  rw [show ((c :: p') ++ rest) = c :: (p' ++ rest) from rfl] at hcond ⊢
  simp only [wbAux, show (c :: p').isEmpty = false from rfl, Bool.false_eq_true, if_false,
    hcond, if_true, Nat.succ_sub_one]
  rw [show (c :: (p' ++ rest)) = (c :: p') ++ rest from rfl, List.drop_left]

theorem wbAux_skip_replicate {pat : List Char} (hemp : pat.isEmpty = false) {lw : Bool}
    {a : Char} (hw : isWordChar a = true) :
    ∀ (n : Nat) {F acc : Nat} {s : List Char},
      wbAux pat lw F acc true (List.replicate n a ++ s) = wbAux pat lw (F - n) acc true s := by
  intro n
  induction n with
  | zero => intro F acc s; simp
  | succ n ih =>
    intro F acc s
    have hcond : ((true != wordHead (a :: (List.replicate n a ++ s)))
        && pat.isPrefixOf (a :: (List.replicate n a ++ s))
        && (lw != wordHead ((a :: (List.replicate n a ++ s)).drop pat.length))) = false := by
      have : wordHead (a :: (List.replicate n a ++ s)) = true := by simpa [wordHead] using hw
      rw [this]
      rfl
    rw [List.replicate_succ, List.cons_append, wbAux_skip hemp hcond, hw, ih,
      show F - 1 - n = F - (n + 1) from by omega]

theorem splitOnCharAux_nil (sep : Char) (cur : List Char) (acc : List (List Char)) :
    splitOnCharAux sep cur acc [] = (cur.reverse :: acc).reverse := rfl

theorem splitOnCharAux_sep (sep : Char) (cur : List Char) (acc : List (List Char))
    (s : List Char) :
    splitOnCharAux sep cur acc (sep :: s) = splitOnCharAux sep [] (cur.reverse :: acc) s := by
  simp [splitOnCharAux]

theorem splitOnCharAux_seg {sep : Char} {seg : List Char}
    (hseg : ∀ c ∈ seg, (c == sep) = false) :
    ∀ (cur : List Char) (acc : List (List Char)) (s : List Char),
      splitOnCharAux sep cur acc (seg ++ s) = splitOnCharAux sep (seg.reverse ++ cur) acc s := by
  induction seg with
  | nil => intro cur acc s; simp
  | cons c cs ih =>
    intro cur acc s
    have hc : (c == sep) = false := hseg c (by simp)
    rw [List.cons_append]
    simp only [splitOnCharAux, hc, Bool.false_eq_true, if_false]
    rw [ih (fun x hx => hseg x (by simp [hx])) (c :: cur) acc s, List.reverse_cons,
      List.append_assoc, List.singleton_append]

/-! ### The §8 scorer exemplar: a 4000-character text containing "burger"
three times (all word-bounded, one in a sub-100-character heading line, one
within the first 500 characters). -/

/-- A 157-character line `"burger " ++ 150 × 'a'`. -/
def lineB : List Char := "burger ".data ++ List.replicate 150 'a'

/-- The 4000-character exemplar text: a 6-character heading line `burger`,
two 157-character lines containing `burger`, and a 3677-character padding
line. -/
def t4000C3 : List Char :=
  "burger".data ++ '\n' :: (lineB ++ '\n' :: (lineB ++ '\n' :: List.replicate 3677 'a'))

theorem lineB_append (X : List Char) :
    lineB ++ X = "burger".data ++ (' ' :: (List.replicate 150 'a' ++ X)) := by
  rw [lineB]; rfl

theorem t4000C3_length : t4000C3.length = 4000 := by
  rw [t4000C3, lineB]
  simp only [List.length_append, List.length_cons, List.length_replicate,
    show ("burger".data).length = 6 from rfl, show ("burger ".data).length = 7 from rfl]

theorem lineB_length : lineB.length = 157 := by
  rw [lineB]
  simp only [List.length_append, List.length_replicate,
    show ("burger ".data).length = 7 from rfl]

theorem t4000C3_lower : lowerStr t4000C3 = t4000C3 := by
  have e1 : List.map pyLower "burger".data = "burger".data := by decide
  have e2 : List.map pyLower "burger ".data = "burger ".data := by decide
  have e3 : pyLower '\n' = '\n' := by decide
  have e4 : pyLower 'a' = 'a' := by decide
  rw [t4000C3, lineB]
  simp only [lowerStr, List.map_append, List.map_cons, List.map_replicate, e1, e2, e3, e4]

theorem burger_cons : ("burger".data) = 'b' :: "urger".data := rfl

theorem burger_noprefix_a : ∀ l, ("burger".data).isPrefixOf ('a' :: l) = false := fun l => by
  rw [burger_cons]; exact isPrefixOf_cons_ne (by decide)

theorem burger_noprefix_nl : ∀ l, ("burger".data).isPrefixOf ('\n' :: l) = false := fun l => by
  rw [burger_cons]; exact isPrefixOf_cons_ne (by decide)

theorem burger_noprefix_sp : ∀ l, ("burger".data).isPrefixOf (' ' :: l) = false := fun l => by
  rw [burger_cons]; exact isPrefixOf_cons_ne (by decide)

theorem countOcc_t4000 : countOcc "burger".data t4000C3 = 3 := by
  have hne : ("burger".data) ≠ [] := by decide
  have e1 : countOccAux "burger".data 4000 0
      ("burger".data ++ '\n' :: (lineB ++ '\n' :: (lineB ++ '\n' :: List.replicate 3677 'a')))
      = countOccAux "burger".data 3999 1
      ('\n' :: (lineB ++ '\n' :: (lineB ++ '\n' :: List.replicate 3677 'a'))) :=
    countOccAux_match hne (by norm_num)
  have e2 : countOccAux "burger".data 3999 1
      ('\n' :: (lineB ++ '\n' :: (lineB ++ '\n' :: List.replicate 3677 'a')))
      = countOccAux "burger".data 3998 1
      (lineB ++ '\n' :: (lineB ++ '\n' :: List.replicate 3677 'a')) :=
    countOccAux_skip (burger_noprefix_nl _)
  have e3 : countOccAux "burger".data 3998 1
      (lineB ++ '\n' :: (lineB ++ '\n' :: List.replicate 3677 'a'))
      = countOccAux "burger".data 3998 1
      ("burger".data ++ (' ' :: (List.replicate 150 'a' ++ '\n' :: (lineB ++ '\n' :: List.replicate 3677 'a')))) :=
    by rw [lineB_append]
  have e4 : countOccAux "burger".data 3998 1
      ("burger".data ++ (' ' :: (List.replicate 150 'a' ++ '\n' :: (lineB ++ '\n' :: List.replicate 3677 'a'))))
      = countOccAux "burger".data 3997 2
      (' ' :: (List.replicate 150 'a' ++ '\n' :: (lineB ++ '\n' :: List.replicate 3677 'a'))) :=
    countOccAux_match hne (by norm_num)
  have e5 : countOccAux "burger".data 3997 2
      (' ' :: (List.replicate 150 'a' ++ '\n' :: (lineB ++ '\n' :: List.replicate 3677 'a')))
      = countOccAux "burger".data 3996 2
      (List.replicate 150 'a' ++ '\n' :: (lineB ++ '\n' :: List.replicate 3677 'a')) :=
    countOccAux_skip (burger_noprefix_sp _)
  have e6 : countOccAux "burger".data 3996 2
      (List.replicate 150 'a' ++ '\n' :: (lineB ++ '\n' :: List.replicate 3677 'a'))
      = countOccAux "burger".data 3846 2
      ('\n' :: (lineB ++ '\n' :: List.replicate 3677 'a')) :=
    countOccAux_skip_replicate burger_noprefix_a 150
  have e7 : countOccAux "burger".data 3846 2
      ('\n' :: (lineB ++ '\n' :: List.replicate 3677 'a'))
      = countOccAux "burger".data 3845 2
      (lineB ++ '\n' :: List.replicate 3677 'a') :=
    countOccAux_skip (burger_noprefix_nl _)
  have e8 : countOccAux "burger".data 3845 2
      (lineB ++ '\n' :: List.replicate 3677 'a')
      = countOccAux "burger".data 3845 2
      ("burger".data ++ (' ' :: (List.replicate 150 'a' ++ '\n' :: List.replicate 3677 'a'))) :=
    by rw [lineB_append]
  have e9 : countOccAux "burger".data 3845 2
      ("burger".data ++ (' ' :: (List.replicate 150 'a' ++ '\n' :: List.replicate 3677 'a')))
      = countOccAux "burger".data 3844 3
      (' ' :: (List.replicate 150 'a' ++ '\n' :: List.replicate 3677 'a')) :=
    countOccAux_match hne (by norm_num)
  have e10 : countOccAux "burger".data 3844 3
      (' ' :: (List.replicate 150 'a' ++ '\n' :: List.replicate 3677 'a'))
      = countOccAux "burger".data 3843 3
      (List.replicate 150 'a' ++ '\n' :: List.replicate 3677 'a') :=
    countOccAux_skip (burger_noprefix_sp _)
  have e11 : countOccAux "burger".data 3843 3
      (List.replicate 150 'a' ++ '\n' :: List.replicate 3677 'a')
      = countOccAux "burger".data 3693 3
      ('\n' :: List.replicate 3677 'a') :=
    countOccAux_skip_replicate burger_noprefix_a 150
  have e12 : countOccAux "burger".data 3693 3
      ('\n' :: List.replicate 3677 'a')
      = countOccAux "burger".data 3692 3
      (List.replicate 3677 'a') :=
    countOccAux_skip (burger_noprefix_nl _)
  have e13 : countOccAux "burger".data 3692 3
      (List.replicate 3677 'a')
      = countOccAux "burger".data 3692 3
      (List.replicate 3677 'a' ++ []) :=
    by rw [List.append_nil]
  have e14 : countOccAux "burger".data 3692 3
      (List.replicate 3677 'a' ++ [])
      = countOccAux "burger".data 15 3 [] :=
    countOccAux_skip_replicate burger_noprefix_a 3677
  rw [countOcc, if_neg (by decide), t4000C3_length, t4000C3, e1, e2, e3, e4, e5, e6, e7, e8, e9, e10, e11, e12, e13, e14]
  exact countOccAux_nil _ _ _

theorem wb_t4000 : wbCount "burger".data t4000C3 = 3 := by
  have hne : ("burger".data) ≠ [] := by decide
  have hemp : ("burger".data).isEmpty = false := by decide
  have hlw : isWordChar (("burger".data).getLastD ' ') = true := by decide
  have f1 : wbAux "burger".data true (4000 + 1) 0 false
      ("burger".data ++ '\n' :: (lineB ++ '\n' :: (lineB ++ '\n' :: List.replicate 3677 'a')))
      = wbAux "burger".data true 4000 1 true
      ('\n' :: (lineB ++ '\n' :: (lineB ++ '\n' :: List.replicate 3677 'a'))) :=
    wbAux_match burger_cons (by decide) (by norm_num) rfl
  have f2 : wbAux "burger".data true (4000) 1 true
      ('\n' :: (lineB ++ '\n' :: (lineB ++ '\n' :: List.replicate 3677 'a')))
      = wbAux "burger".data true 3999 1 false
      (lineB ++ '\n' :: (lineB ++ '\n' :: List.replicate 3677 'a')) :=
    wbAux_skip_noprefix hemp (burger_noprefix_nl _)
  have f3 : wbAux "burger".data true (3999) 1 false
      (lineB ++ '\n' :: (lineB ++ '\n' :: List.replicate 3677 'a'))
      = wbAux "burger".data true 3999 1 false
      ("burger".data ++ (' ' :: (List.replicate 150 'a' ++ '\n' :: (lineB ++ '\n' :: List.replicate 3677 'a')))) :=
    by rw [lineB_append]
  have f4 : wbAux "burger".data true (3999) 1 false
      ("burger".data ++ (' ' :: (List.replicate 150 'a' ++ '\n' :: (lineB ++ '\n' :: List.replicate 3677 'a'))))
      = wbAux "burger".data true 3998 2 true
      (' ' :: (List.replicate 150 'a' ++ '\n' :: (lineB ++ '\n' :: List.replicate 3677 'a'))) :=
    wbAux_match burger_cons (by decide) (by norm_num) rfl
  have f5 : wbAux "burger".data true (3998) 2 true
      (' ' :: (List.replicate 150 'a' ++ '\n' :: (lineB ++ '\n' :: List.replicate 3677 'a')))
      = wbAux "burger".data true 3997 2 false
      (List.replicate 150 'a' ++ '\n' :: (lineB ++ '\n' :: List.replicate 3677 'a')) :=
    wbAux_skip_noprefix hemp (burger_noprefix_sp _)
  have f6 : wbAux "burger".data true (3997) 2 false
      (List.replicate 150 'a' ++ '\n' :: (lineB ++ '\n' :: List.replicate 3677 'a'))
      = wbAux "burger".data true 3997 2 false
      ('a' :: (List.replicate 149 'a' ++ '\n' :: (lineB ++ '\n' :: List.replicate 3677 'a'))) :=
    by rw [show (150 : Nat) = 149 + 1 from by norm_num, List.replicate_succ, List.cons_append]
  have f7 : wbAux "burger".data true (3997) 2 false
      ('a' :: (List.replicate 149 'a' ++ '\n' :: (lineB ++ '\n' :: List.replicate 3677 'a')))
      = wbAux "burger".data true 3996 2 true
      (List.replicate 149 'a' ++ '\n' :: (lineB ++ '\n' :: List.replicate 3677 'a')) :=
    wbAux_skip_noprefix hemp (burger_noprefix_a _)
  have f8 : wbAux "burger".data true (3996) 2 true
      (List.replicate 149 'a' ++ '\n' :: (lineB ++ '\n' :: List.replicate 3677 'a'))
      = wbAux "burger".data true 3847 2 true
      ('\n' :: (lineB ++ '\n' :: List.replicate 3677 'a')) :=
    wbAux_skip_replicate hemp (by decide) 149
  have f9 : wbAux "burger".data true (3847) 2 true
      ('\n' :: (lineB ++ '\n' :: List.replicate 3677 'a'))
      = wbAux "burger".data true 3846 2 false
      (lineB ++ '\n' :: List.replicate 3677 'a') :=
    wbAux_skip_noprefix hemp (burger_noprefix_nl _)
  have f10 : wbAux "burger".data true (3846) 2 false
      (lineB ++ '\n' :: List.replicate 3677 'a')
      = wbAux "burger".data true 3846 2 false
      ("burger".data ++ (' ' :: (List.replicate 150 'a' ++ '\n' :: List.replicate 3677 'a'))) :=
    by rw [lineB_append]
  have f11 : wbAux "burger".data true (3846) 2 false
      ("burger".data ++ (' ' :: (List.replicate 150 'a' ++ '\n' :: List.replicate 3677 'a')))
      = wbAux "burger".data true 3845 3 true
      (' ' :: (List.replicate 150 'a' ++ '\n' :: List.replicate 3677 'a')) :=
    wbAux_match burger_cons (by decide) (by norm_num) rfl
  have f12 : wbAux "burger".data true (3845) 3 true
      (' ' :: (List.replicate 150 'a' ++ '\n' :: List.replicate 3677 'a'))
      = wbAux "burger".data true 3844 3 false
      (List.replicate 150 'a' ++ '\n' :: List.replicate 3677 'a') :=
    wbAux_skip_noprefix hemp (burger_noprefix_sp _)
  have f13 : wbAux "burger".data true (3844) 3 false
      (List.replicate 150 'a' ++ '\n' :: List.replicate 3677 'a')
      = wbAux "burger".data true 3844 3 false
      ('a' :: (List.replicate 149 'a' ++ '\n' :: List.replicate 3677 'a')) :=
    by rw [show (150 : Nat) = 149 + 1 from by norm_num, List.replicate_succ, List.cons_append]
  have f14 : wbAux "burger".data true (3844) 3 false
      ('a' :: (List.replicate 149 'a' ++ '\n' :: List.replicate 3677 'a'))
      = wbAux "burger".data true 3843 3 true
      (List.replicate 149 'a' ++ '\n' :: List.replicate 3677 'a') :=
    wbAux_skip_noprefix hemp (burger_noprefix_a _)
  have f15 : wbAux "burger".data true (3843) 3 true
      (List.replicate 149 'a' ++ '\n' :: List.replicate 3677 'a')
      = wbAux "burger".data true 3694 3 true
      ('\n' :: List.replicate 3677 'a') :=
    wbAux_skip_replicate hemp (by decide) 149
  have f16 : wbAux "burger".data true (3694) 3 true
      ('\n' :: List.replicate 3677 'a')
      = wbAux "burger".data true 3693 3 false
      (List.replicate 3677 'a') :=
    wbAux_skip_noprefix hemp (burger_noprefix_nl _)
  have f17 : wbAux "burger".data true (3693) 3 false
      (List.replicate 3677 'a')
      = wbAux "burger".data true 3693 3 false
      ('a' :: (List.replicate 3676 'a' ++ [])) :=
    by
      conv_lhs => rw [show (3677 : Nat) = 3676 + 1 from by norm_num, List.replicate_succ,
        show (List.replicate 3676 'a') = List.replicate 3676 'a' ++ [] from
          (List.append_nil _).symm]
  have f18 : wbAux "burger".data true (3693) 3 false
      ('a' :: (List.replicate 3676 'a' ++ []))
      = wbAux "burger".data true 3692 3 true
      (List.replicate 3676 'a' ++ []) :=
    wbAux_skip_noprefix hemp (burger_noprefix_a _)
  have f19 : wbAux "burger".data true (3692) 3 true
      (List.replicate 3676 'a' ++ [])
      = wbAux "burger".data true 16 3 true [] :=
    wbAux_skip_replicate hemp (by decide) 3676
  rw [wbCount, hlw, t4000C3_length, t4000C3, f1, f2, f3, f4, f5, f6, f7, f8, f9, f10, f11, f12, f13, f14, f15, f16, f17, f18, f19]
  exact wbAux_nil hne _ _ _ _

theorem lines_t4000 :
    splitOnChar '\n' t4000C3 = ["burger".data, lineB, lineB, List.replicate 3677 'a'] := by
  have hsegB : ∀ c ∈ "burger".data, (c == '\n') = false := by decide
  have hsegB7 : ∀ c ∈ "burger ".data, (c == '\n') = false := by decide
  have hsegLB : ∀ c ∈ lineB, (c == '\n') = false := by
    intro c hc
    rw [lineB] at hc
    rcases List.mem_append.mp hc with h | h
    · exact hsegB7 c h
    · rw [List.eq_of_mem_replicate h]; rfl
  have hsegR : ∀ c ∈ List.replicate 3677 'a', (c == '\n') = false := fun c h => by
    rw [List.eq_of_mem_replicate h]; rfl
  rw [splitOnChar, t4000C3, splitOnCharAux_seg hsegB, splitOnCharAux_sep,
    splitOnCharAux_seg hsegLB, splitOnCharAux_sep, splitOnCharAux_seg hsegLB,
    splitOnCharAux_sep,
    show (List.replicate 3677 'a') = List.replicate 3677 'a' ++ [] from (List.append_nil _).symm,
    splitOnCharAux_seg hsegR, splitOnCharAux_nil]
  simp only [List.append_nil, List.reverse_reverse]
  rfl

theorem check_relevance_single (kw c : List Char) (h100 : ¬ c.length < 100) :
    check_relevance [kw] c =
      (let base := (splitOnChar '\n' c).foldl (fun b line =>
          if isSubstr (lowerStr kw) (stripPy (lowerStr line)) ∧ line.length < 100 then b + 15
          else b)
        (if isSubstr (lowerStr kw) ((lowerStr c).take 500) then
          0 + countOcc (lowerStr kw) (lowerStr c) * 2 + wbCount (lowerStr kw) (lowerStr c) * 3
            + 10
         else
          0 + countOcc (lowerStr kw) (lowerStr c) * 2
            + wbCount (lowerStr kw) (lowerStr c) * 3);
       let s1 := if c.length < 500 then intMulFloat base m07 53 else base
       let s2 := if c.length > 1000 then intMulFloat s1 m12 52 else s1
       if c.length > 3000 then intMulFloat s2 m15 52 else s2) := by
  simp only [check_relevance, if_neg h100, List.foldl_cons, List.foldl_nil]

/-- The §8 exemplar, computed on the source scorer: the text of `t4000C3`
scores `int(int(40 * 1.2) * 1.5) = 72`. -/
theorem crel_t4000 : check_relevance ["burger".data] t4000C3 = 72 := by
  have hkw : lowerStr "burger".data = "burger".data := by decide
  have hsub : isSubstr "burger".data (t4000C3.take 500) = true := by
    rw [t4000C3]; decide
  have hc1 : isSubstr "burger".data (stripPy (lowerStr "burger".data))
      ∧ ("burger".data).length < 100 := by decide
  have hc2 : ¬ (isSubstr "burger".data (stripPy (lowerStr lineB)) = true
      ∧ lineB.length < 100) :=
    fun h => absurd h.2 (by rw [lineB_length]; norm_num)
  have hc4 : ¬ (isSubstr "burger".data (stripPy (lowerStr (List.replicate 3677 'a'))) = true
      ∧ (List.replicate 3677 'a').length < 100) :=
    fun h => absurd h.2 (by rw [List.length_replicate]; norm_num)
  rw [check_relevance_single _ _ (by rw [t4000C3_length]; norm_num)]
  rw [t4000C3_lower, hkw, countOcc_t4000, wb_t4000, lines_t4000, t4000C3_length,
    if_pos hsub]
  simp only [List.foldl_cons, List.foldl_nil]
  rw [if_pos hc1, if_neg hc2, if_neg hc2, if_neg hc4]
  decide

/-- The 400-character ×0.7 exemplar: `"kw " * 16 ++ "a" * 352` — a single
line, keyword "kw" appearing 16 times (all word-bounded, within the first 500
characters), so the base score is 16·2 + 16·3 + 10 = 90 at length 400. -/
def c400 : List Char := (List.replicate 16 "kw ".data).flatten ++ List.replicate 352 'a'

/-- The ×0.7 exemplar on the source scorer: `int(90 * 0.7) = 62` in binary64
arithmetic (`90 * 0.7 == 62.99999999999999` in CPython). -/
theorem crel_c400 : check_relevance ["kw".data] c400 = 62 := by decide

/-- C3 counterexample, two divergences from the claim's reading of §4.2.
(a) On the spec's own §8 exemplar — a 4000-character text containing "burger"
three times, once in a heading-length line, once within the first 500
characters — the scorer returns `int(int(40 * 1.2) * 1.5) = 72`, not the
claimed `(3×2 + 3×3 + 10 + 15) × 1.5 = 60`: at length 4000 the `×1.2` bonus
also applies (compounding), and each multiplication is truncated separately.
(b) The multiplications are CPython binary64 arithmetic, not exact decimal:
on a 400-character text with base score 90 the scorer returns
`int(90 * 0.7) = 62` (since `90 · double(0.7) < 63`), not `⌊90 · 7/10⌋ = 63`. -/
theorem C3_cex :
    (t4000C3.length = 4000
      ∧ check_relevance ["burger".data] t4000C3 = 72
      ∧ check_relevance ["burger".data] t4000C3 ≠ (3 * 2 + 3 * 3 + 10 + 15) * 3 / 2)
    ∧ (c400.length = 400
      ∧ check_relevance ["kw".data] c400 = 62
      ∧ check_relevance ["kw".data] c400 ≠ 90 * 7 / 10) := by
  refine ⟨⟨t4000C3_length, crel_t4000, ?_⟩, by decide, crel_c400, ?_⟩
  · rw [crel_t4000]
    norm_num
  · rw [crel_c400]
    norm_num

/-- C3 (amended): the relevance scorer returns exactly the §4.2 reference
value with the multipliers read as CPython evaluates them — 0 for texts under
100 characters; otherwise the sum over keywords of 2×occurrences +
3×word-boundary matches + 10 if the keyword is in the first 500 characters +
15 per sub-100-character line containing it, with the length adjustments
applied once to the accumulated total in sequence (×0.7 if < 500, ×1.2 if >
1000, ×1.5 if > 3000, the two upper multipliers compounding), each
multiplication performed in binary64 floating point and truncated to integer
before the next; the length-4000 "burger" exemplar scores
int(int(40×1.2)×1.5) = 72, and a base score of 90 at length 400 yields
int(90×0.7) = 62. -/
theorem C3_scorer_matches_spec :
    (∀ kws c, check_relevance kws c = spec_score kws c)
      ∧ (∀ kws c, c.length < 100 → check_relevance kws c = 0)
      ∧ check_relevance ["burger".data] t4000C3 = 72
      ∧ check_relevance ["kw".data] c400 = 62 :=
  ⟨check_relevance_eq_spec_score,
   fun kws c h => by simp [check_relevance, h],
   crel_t4000, crel_c400⟩

/-- Witness for C3: the short-text rule applied at a concrete input. -/
theorem C3_witness : check_relevance ["kw".data] "tiny".data = 0 :=
  C3_scorer_matches_spec.2.1 ["kw".data] "tiny".data (by decide)

/-! ## The crawl-and-score engine (`WebScraper.crawl_with_score_criteria`,
scraper.py lines 22–135) -/

/-- A rendered page, as the external Renderer capability exposes it:
the validity signal of `_is_valid_page`, the title of `_get_page_title`, the
body text of `_extract_content` and the raw hrefs read by `_extract_links`. -/
structure Page where
  valid : Bool
  title : List Char
  content : List Char
  links : List (List Char)

/-- One entry of `collected_pages` (lines 91–96). -/
structure PageData where
  url : List Char
  title : List Char
  content : List Char
  relevance_score : Nat
deriving DecidableEq

/-- The crawl configuration: the Origin Context derived from the seed
(lines 31–43) and the three integer parameters. -/
structure CrawlConfig where
  baseUrl : List Char
  baseDomain : List Char
  maxDepth : Int
  minScore : Int
  threshold : Int

/-- The per-crawl mutable state (lines 45–49), plus a ghost trace `rendered`
recording every `page.goto` invocation as (normalized url, depth). -/
structure CrawlState where
  queue : List (List Char × Nat)
  visited : List (List Char)
  collected : List PageData
  cum : Nat
  stop : Bool
  rendered : List (List Char × Nat)
deriving DecidableEq

/-- Python `set.add` on the insertion-ordered list modelling `visited`. -/
def pyInsert (v : List (List Char)) (x : List Char) : List (List Char) :=
  if x ∈ v then v else v ++ [x]

/-- `WebScraper._extract_links` (lines 239–257): normalize each raw href,
dropping empty results and duplicates, preserving first-seen order. -/
def extract_links (baseUrl : List Char) (hrefs : List (List Char)) : List (List Char) :=
  hrefs.foldl (fun acc href =>
    if href = [] then acc
    else if normalize_url baseUrl href ≠ [] ∧ normalize_url baseUrl href ∉ acc then
      acc ++ [normalize_url baseUrl href]
    else acc) []

/-- The same-domain/external partition loop of lines 112–120, producing
`(same_domain_links, external_links)`. -/
def partition_links (baseDomain : List Char) (visited : List (List Char)) (d : Nat)
    (links : List (List Char)) : List (List Char × Nat) × List (List Char × Nat) :=
  links.foldl (fun p link =>
    if link ∈ visited then p
    else if isSubstr baseDomain link then (p.1 ++ [(link, d + 1)], p.2)
    else (p.1, p.2 ++ [(link, d + 1)])) ([], [])

/-- The Renderer capability: `none` models an exception from
`context.new_page()`/`page.goto` (caught by lines 126–127). -/
def Render : Type := List Char → Option Page

/-- Lines 70–75: mark the normalized URL visited; the ghost `rendered` trace
records the `page.goto` call made in the same block. -/
def markVisited (st : CrawlState) (nu : List Char) (d : Nat) : CrawlState :=
  { st with visited := pyInsert st.visited nu, rendered := st.rendered ++ [(nu, d)] }

/-- Lines 88–106: if the score passes `min_score`, append the PageRecord,
accumulate the score, and set `stop_crawling` when the cumulative threshold
is reached. -/
def recordPage (kws : List (List Char)) (cfg : CrawlConfig) (st : CrawlState)
    (nu : List Char) (page : Page) : CrawlState :=
  if (check_relevance kws page.content : Int) ≥ cfg.minScore then
    if ((st.cum + check_relevance kws page.content : Nat) : Int) ≥ cfg.threshold then
      { st with
        collected := st.collected
          ++ [⟨nu, page.title, page.content, check_relevance kws page.content⟩],
        cum := st.cum + check_relevance kws page.content,
        stop := true }
    else
      { st with
        collected := st.collected
          ++ [⟨nu, page.title, page.content, check_relevance kws page.content⟩],
        cum := st.cum + check_relevance kws page.content }
  else st

/-- Lines 108–124: when below `max_depth` and not stopping, extract, partition
and enqueue the child links (same-domain first). -/
def expandLinks (cfg : CrawlConfig) (st : CrawlState) (d : Nat) (page : Page) : CrawlState :=
  if (d : Int) < cfg.maxDepth ∧ st.stop = false then
    { st with queue := st.queue
        ++ (partition_links cfg.baseDomain st.visited d (extract_links cfg.baseUrl page.links)).1
        ++ (partition_links cfg.baseDomain st.visited d
              (extract_links cfg.baseUrl page.links)).2 }
  else st

/-- One iteration of the while body (lines 54–129) after popping `(u, d)`;
`st.queue` is already the tail of the frontier. -/
def stepTarget (render : Render) (kws : List (List Char)) (cfg : CrawlConfig)
    (st : CrawlState) (u : List Char) (d : Nat) : CrawlState :=
  if u ∈ st.visited then st
  else if (d : Int) > cfg.maxDepth then st
  else if normalize_url cfg.baseUrl u = [] then st
  else
    match render (normalize_url cfg.baseUrl u) with
    | none => markVisited st (normalize_url cfg.baseUrl u) d
    | some page =>
      if page.valid then
        expandLinks cfg
          (recordPage kws cfg (markVisited st (normalize_url cfg.baseUrl u) d)
            (normalize_url cfg.baseUrl u) page)
          d page
      else markVisited st (normalize_url cfg.baseUrl u) d

/-- The while loop (line 54), with fuel: the loop condition
`queue and not stop_crawling` is checked before each dequeue. -/
def crawlLoop (render : Render) (kws : List (List Char)) (cfg : CrawlConfig) :
    Nat → CrawlState → CrawlState
  | 0, st => st
  | fuel + 1, st =>
    if st.stop = true then st
    else
      match st.queue with
      | [] => st
      | (u, d) :: rest =>
        crawlLoop render kws cfg fuel
          (stepTarget render kws cfg { st with queue := rest } u d)

/-- Lines 45–49: the initial crawl state, frontier seeded with (startURL, 0). -/
def initState (startUrl : List Char) : CrawlState :=
  ⟨[(startUrl, 0)], [], [], 0, false, []⟩

/-- Stable insertion for the descending sort of line 134. -/
def insertByScore (x : PageData) : List PageData → List PageData
  | [] => [x]
  | y :: ys =>
    if x.relevance_score ≥ y.relevance_score then x :: y :: ys
    else y :: insertByScore x ys

/-- Python's stable `list.sort(key=relevance_score, reverse=True)` (line 134). -/
def sortByScoreDesc : List PageData → List PageData
  | [] => []
  | x :: xs => insertByScore x (sortByScoreDesc xs)

/-- The final crawl state reached from the seed. -/
def crawlFinal (render : Render) (kws : List (List Char)) (cfg : CrawlConfig)
    (startUrl : List Char) (fuel : Nat) : CrawlState :=
  crawlLoop render kws cfg fuel (initState startUrl)

/-- `crawl_with_score_criteria`'s return value (lines 131–135): the collected
pages sorted by score descending. -/
def crawl_with_score_criteria (render : Render) (kws : List (List Char)) (cfg : CrawlConfig)
    (startUrl : List Char) (fuel : Nat) : List PageData :=
  sortByScoreDesc (crawlFinal render kws cfg startUrl fuel).collected

/-- `RufusClient.scrape_with_cumulative_score` (client.py lines 62–92): a
failure acquiring the browser/render context (`acquire = none`) is caught by
the `except` clause and surfaced to the caller as an empty result. -/
def scrape_with_cumulative_score (acquire : Option Render) (kws : List (List Char))
    (cfg : CrawlConfig) (startUrl : List Char) (fuel : Nat) : List PageData :=
  match acquire with
  | none => []
  | some render => crawl_with_score_criteria render kws cfg startUrl fuel

/-! ### Basic lemmas about the crawl-state helpers -/

theorem pyInsert_eq_or_append (v : List (List Char)) (x : List Char) :
    pyInsert v x = v ∨ pyInsert v x = v ++ [x] := by
  rw [pyInsert]; split <;> simp

theorem prefix_pyInsert (v : List (List Char)) (x : List Char) : v <+: pyInsert v x := by
  rw [pyInsert]
  split
  · exact List.prefix_rfl
  · exact List.prefix_append v [x]

theorem mem_pyInsert {v : List (List Char)} {x y : List Char} :
    y ∈ pyInsert v x ↔ y ∈ v ∨ y = x := by
  rw [pyInsert]; split <;> rename_i h <;> simp_all


theorem self_mem_pyInsert (v : List (List Char)) (x : List Char) : x ∈ pyInsert v x :=
  mem_pyInsert.mpr (Or.inr rfl)

theorem nodup_pyInsert {v : List (List Char)} (x : List Char) (h : v.Nodup) :
    (pyInsert v x).Nodup := by
  rw [pyInsert]; split
  · exact h
  · rename_i hx
    simpa [List.nodup_append, h] using hx

/-- The sum of `relevance_score` over a record list. -/
def sumScores (l : List PageData) : Nat := (l.map PageData.relevance_score).sum

theorem sumScores_nil : sumScores [] = 0 := rfl

theorem sumScores_append (l₁ l₂ : List PageData) :
    sumScores (l₁ ++ l₂) = sumScores l₁ + sumScores l₂ := by
  simp [sumScores]

theorem sumScores_take_le (l : List PageData) (k : Nat) :
    sumScores (l.take k) ≤ sumScores l := by
  conv_rhs => rw [← List.take_append_drop k l]
  rw [sumScores_append]
  omega

theorem mem_insertByScore {x y : PageData} {l : List PageData} :
    y ∈ insertByScore x l ↔ y = x ∨ y ∈ l := by
  induction l with
  | nil => simp [insertByScore]
  | cons z zs ih =>
    rw [insertByScore]
    split
    · simp
    · simp only [List.mem_cons, ih]
      tauto

theorem mem_sortByScoreDesc {y : PageData} {l : List PageData} :
    y ∈ sortByScoreDesc l ↔ y ∈ l := by
  induction l with
  | nil => simp [sortByScoreDesc]
  | cons z zs ih =>
    rw [sortByScoreDesc, mem_insertByScore, ih]
    simp

theorem sumScores_insertByScore (x : PageData) (l : List PageData) :
    sumScores (insertByScore x l) = x.relevance_score + sumScores l := by
  induction l with
  | nil => simp [insertByScore, sumScores]
  | cons z zs ih =>
    rw [insertByScore]
    split
    · simp [sumScores]
    · simp only [sumScores, List.map_cons, List.sum_cons] at ih ⊢
      omega

theorem sumScores_sort (l : List PageData) : sumScores (sortByScoreDesc l) = sumScores l := by
  induction l with
  | nil => rfl
  | cons z zs ih =>
    rw [sortByScoreDesc, sumScores_insertByScore, ih]
    simp [sumScores]

/-! ### Characterization of link extraction and the frontier partition -/

theorem extract_links_mem {b : List Char} {hrefs : List (List Char)} :
    ∀ l ∈ extract_links b hrefs, l ≠ [] ∧ ∃ h, l = normalize_url b h := by
  rw [extract_links]
  suffices H : ∀ (hs : List (List Char)) (acc : List (List Char)),
      (∀ l ∈ acc, l ≠ [] ∧ ∃ h, l = normalize_url b h) →
      ∀ l ∈ hs.foldl (fun acc href =>
        if href = [] then acc
        else if normalize_url b href ≠ [] ∧ normalize_url b href ∉ acc then
          acc ++ [normalize_url b href]
        else acc) acc, l ≠ [] ∧ ∃ h, l = normalize_url b h by
    exact H hrefs [] (by simp)
  intro hs
  induction hs with
  | nil => intro acc hacc l hl; exact hacc l hl
  | cons h hs ih =>
    intro acc hacc l hl
    rw [List.foldl_cons] at hl
    refine ih _ ?_ l hl
    split
    · exact hacc
    · split
      · rename_i hcond
        intro l' hl'
        rcases List.mem_append.mp hl' with h' | h'
        · exact hacc l' h'
        · rw [List.mem_singleton.mp h']
          exact ⟨hcond.1, h, rfl⟩
      · exact hacc

theorem partition_links_eq (bd : List Char) (vis : List (List Char)) (d : Nat)
    (links : List (List Char)) :
    partition_links bd vis d links =
      ((links.filter (fun l => decide (l ∉ vis) && isSubstr bd l)).map (fun l => (l, d + 1)),
       (links.filter (fun l => decide (l ∉ vis) && !isSubstr bd l)).map (fun l => (l, d + 1))) := by
  rw [partition_links]
  suffices H : ∀ (ls : List (List Char)) (p : List (List Char × Nat) × List (List Char × Nat)),
      ls.foldl (fun p link =>
        if link ∈ vis then p
        else if isSubstr bd link then (p.1 ++ [(link, d + 1)], p.2)
        else (p.1, p.2 ++ [(link, d + 1)])) p =
      (p.1 ++ (ls.filter (fun l => decide (l ∉ vis) && isSubstr bd l)).map (fun l => (l, d + 1)),
       p.2 ++ (ls.filter (fun l => decide (l ∉ vis) && !isSubstr bd l)).map
         (fun l => (l, d + 1))) by
    rw [H links ([], [])]
    simp
  intro ls
  induction ls with
  | nil => intro p; simp
  | cons x xs ih =>
    intro p
    rw [List.foldl_cons]
    by_cases hv : x ∈ vis
    · rw [if_pos hv, ih]
      simp [List.filter_cons, hv]
    · rw [if_neg hv]
      by_cases hs : isSubstr bd x = true
      · rw [if_pos hs, ih]
        simp [List.filter_cons, hv, hs]
      · have hs' : isSubstr bd x = false := Bool.eq_false_iff.mpr hs
        rw [if_neg hs, ih]
        simp [List.filter_cons, hv, hs']

theorem partition_links_mem {bd : List Char} {vis : List (List Char)} {d : Nat}
    {links : List (List Char)} {e : List Char × Nat}
    (he : e ∈ (partition_links bd vis d links).1 ++ (partition_links bd vis d links).2) :
    e.2 = d + 1 ∧ e.1 ∈ links ∧ e.1 ∉ vis := by
  rw [partition_links_eq] at he
  rcases List.mem_append.mp he with h | h <;>
    · rcases List.mem_map.mp h with ⟨l, hl, rfl⟩
      rcases List.mem_filter.mp hl with ⟨hml, hcond⟩
      simp only [Bool.and_eq_true] at hcond
      exact ⟨rfl, hml, of_decide_eq_true hcond.1⟩

/-! ### Case lemmas for one loop iteration -/

theorem stepTarget_visited {render : Render} {kws : List (List Char)} {cfg : CrawlConfig} {st : CrawlState} {u : List Char} {d : Nat} (h : u ∈ st.visited) :
    stepTarget render kws cfg st u d = st := by
  rw [stepTarget, if_pos h]

theorem stepTarget_deep {render : Render} {kws : List (List Char)} {cfg : CrawlConfig} {st : CrawlState} {u : List Char} {d : Nat} (h1 : u ∉ st.visited)
    (h2 : (d : Int) > cfg.maxDepth) :
    stepTarget render kws cfg st u d = st := by
  rw [stepTarget, if_neg h1, if_pos h2]

theorem stepTarget_badurl {render : Render} {kws : List (List Char)} {cfg : CrawlConfig} {st : CrawlState} {u : List Char} {d : Nat} (h1 : u ∉ st.visited)
    (h2 : ¬ (d : Int) > cfg.maxDepth) (h3 : normalize_url cfg.baseUrl u = []) :
    stepTarget render kws cfg st u d = st := by
  rw [stepTarget, if_neg h1, if_neg h2, if_pos h3]

theorem stepTarget_fail {render : Render} {kws : List (List Char)} {cfg : CrawlConfig} {st : CrawlState} {u : List Char} {d : Nat} (h1 : u ∉ st.visited)
    (h2 : ¬ (d : Int) > cfg.maxDepth) (h3 : normalize_url cfg.baseUrl u ≠ [])
    (h4 : render (normalize_url cfg.baseUrl u) = none) :
    stepTarget render kws cfg st u d = markVisited st (normalize_url cfg.baseUrl u) d := by
  rw [stepTarget, if_neg h1, if_neg h2, if_neg h3, h4]

theorem stepTarget_invalid {render : Render} {kws : List (List Char)} {cfg : CrawlConfig} {st : CrawlState} {u : List Char} {d : Nat} {page : Page} (h1 : u ∉ st.visited)
    (h2 : ¬ (d : Int) > cfg.maxDepth) (h3 : normalize_url cfg.baseUrl u ≠ [])
    (h4 : render (normalize_url cfg.baseUrl u) = some page) (h5 : page.valid = false) :
    stepTarget render kws cfg st u d = markVisited st (normalize_url cfg.baseUrl u) d := by
  rw [stepTarget, if_neg h1, if_neg h2, if_neg h3, h4]
  simp [h5]

theorem stepTarget_valid {render : Render} {kws : List (List Char)} {cfg : CrawlConfig} {st : CrawlState} {u : List Char} {d : Nat} {page : Page} (h1 : u ∉ st.visited)
    (h2 : ¬ (d : Int) > cfg.maxDepth) (h3 : normalize_url cfg.baseUrl u ≠ [])
    (h4 : render (normalize_url cfg.baseUrl u) = some page) (h5 : page.valid = true) :
    stepTarget render kws cfg st u d =
      expandLinks cfg
        (recordPage kws cfg (markVisited st (normalize_url cfg.baseUrl u) d)
          (normalize_url cfg.baseUrl u) page)
        d page := by
  rw [stepTarget, if_neg h1, if_neg h2, if_neg h3, h4]
  simp [h5]

/-- Exhaustive case split on one iteration: either the target is skipped with
the state unchanged, or the normalized URL is marked visited and rendered and
the rest of the iteration runs. -/
theorem stepTarget_cases (render : Render) (kws : List (List Char)) (cfg : CrawlConfig)
    (st : CrawlState) (u : List Char) (d : Nat) :
    stepTarget render kws cfg st u d = st ∨
      (u ∉ st.visited ∧ ¬ (d : Int) > cfg.maxDepth ∧ normalize_url cfg.baseUrl u ≠ [] ∧
        (stepTarget render kws cfg st u d = markVisited st (normalize_url cfg.baseUrl u) d ∨
         ∃ page, render (normalize_url cfg.baseUrl u) = some page ∧ page.valid = true ∧
           stepTarget render kws cfg st u d =
             expandLinks cfg
               (recordPage kws cfg (markVisited st (normalize_url cfg.baseUrl u) d)
                 (normalize_url cfg.baseUrl u) page)
               d page)) := by
  by_cases h1 : u ∈ st.visited
  · exact Or.inl (stepTarget_visited h1)
  by_cases h2 : (d : Int) > cfg.maxDepth
  · exact Or.inl (stepTarget_deep h1 h2)
  by_cases h3 : normalize_url cfg.baseUrl u = []
  · exact Or.inl (stepTarget_badurl h1 h2 h3)
  cases h4 : render (normalize_url cfg.baseUrl u) with
  | none => exact Or.inr ⟨h1, h2, h3, Or.inl (stepTarget_fail h1 h2 h3 h4)⟩
  | some page =>
    cases h5 : page.valid with
    | false => exact Or.inr ⟨h1, h2, h3, Or.inl (stepTarget_invalid h1 h2 h3 h4 h5)⟩
    | true => exact Or.inr ⟨h1, h2, h3, Or.inr ⟨page, rfl, h5, stepTarget_valid h1 h2 h3 h4 h5⟩⟩

/-- Shape of `recordPage`: either nothing is recorded, or exactly the popped
page's record (with its score ≥ minScore) is appended and accumulated, the
stop flag set iff the new cumulative score reaches the threshold. -/
theorem recordPage_cases (kws : List (List Char)) (cfg : CrawlConfig) (st : CrawlState)
    (nu : List Char) (page : Page) :
    (recordPage kws cfg st nu page = st
      ∧ ¬ (check_relevance kws page.content : Int) ≥ cfg.minScore) ∨
    ((check_relevance kws page.content : Int) ≥ cfg.minScore ∧
      recordPage kws cfg st nu page =
        { st with
          collected := st.collected
            ++ [⟨nu, page.title, page.content, check_relevance kws page.content⟩],
          cum := st.cum + check_relevance kws page.content,
          stop := if ((st.cum + check_relevance kws page.content : Nat) : Int) ≥ cfg.threshold
            then true else st.stop }) := by
  rw [recordPage]
  by_cases hs : (check_relevance kws page.content : Int) ≥ cfg.minScore
  · rw [if_pos hs]
    refine Or.inr ⟨hs, ?_⟩
    by_cases ht : ((st.cum + check_relevance kws page.content : Nat) : Int) ≥ cfg.threshold
    · rw [if_pos ht, if_pos ht]
    · rw [if_neg ht, if_neg ht]
  · rw [if_neg hs]
    exact Or.inl ⟨rfl, hs⟩

/-- Shape of `expandLinks`: the queue is extended with the partitioned child
links exactly when the popped depth is below maxDepth and the crawl is not
stopping; nothing else changes. -/
theorem expandLinks_cases (cfg : CrawlConfig) (st : CrawlState) (d : Nat) (page : Page) :
    expandLinks cfg st d page = st ∨
      ((d : Int) < cfg.maxDepth ∧ st.stop = false ∧
        expandLinks cfg st d page =
          { st with queue := st.queue
            ++ (partition_links cfg.baseDomain st.visited d
                  (extract_links cfg.baseUrl page.links)).1
            ++ (partition_links cfg.baseDomain st.visited d
                  (extract_links cfg.baseUrl page.links)).2 }) := by
  rw [expandLinks]
  by_cases h : (d : Int) < cfg.maxDepth ∧ st.stop = false
  · rw [if_pos h]
    exact Or.inr ⟨h.1, h.2, rfl⟩
  · rw [if_neg h]
    exact Or.inl rfl

/-! ### The loop equations and the induction scaffold -/

theorem crawlLoop_zero (render kws cfg st) : crawlLoop render kws cfg 0 st = st := rfl

theorem crawlLoop_stop {render : Render} {kws : List (List Char)} {cfg : CrawlConfig} {st : CrawlState} (h : st.stop = true) (fuel : Nat) :
    crawlLoop render kws cfg fuel st = st := by
  cases fuel with
  | zero => rfl
  | succ n => rw [crawlLoop, if_pos h]

theorem crawlLoop_empty {render : Render} {kws : List (List Char)} {cfg : CrawlConfig} {st : CrawlState} (h : st.queue = []) (fuel : Nat) :
    crawlLoop render kws cfg fuel st = st := by
  cases fuel with
  | zero => rfl
  | succ n =>
    rw [crawlLoop]
    split
    · rfl
    · rw [h]

theorem crawlLoop_step {render : Render} {kws : List (List Char)} {cfg : CrawlConfig} {st : CrawlState} {u : List Char} {d : Nat} {rest : List (List Char × Nat)} (hs : st.stop = false)
    (hq : st.queue = (u, d) :: rest) (fuel : Nat) :
    crawlLoop render kws cfg (fuel + 1) st =
      crawlLoop render kws cfg fuel (stepTarget render kws cfg { st with queue := rest } u d) := by
  rw [crawlLoop, if_neg (by rw [hs]; decide), hq]

/-- Invariant preservation along the loop: a predicate that survives one
dequeued iteration survives the whole crawl. -/
theorem crawlLoop_inv {render : Render} {kws : List (List Char)} {cfg : CrawlConfig} (P : CrawlState → Prop)
    (hstep : ∀ st u d rest, st.stop = false → st.queue = (u, d) :: rest → P st →
      P (stepTarget render kws cfg { st with queue := rest } u d)) :
    ∀ fuel st, P st → P (crawlLoop render kws cfg fuel st) := by
  intro fuel
  induction fuel with
  | zero => intro st h; exact h
  | succ n ih =>
    intro st h
    by_cases hs : st.stop = true
    · rw [crawlLoop_stop hs]; exact h
    · have hs' : st.stop = false := Bool.eq_false_iff.mpr hs
      cases hq : st.queue with
      | nil => rw [crawlLoop_empty hq]; exact h
      | cons e rest =>
        rw [crawlLoop_step hs' (by rw [hq]) n]
        exact ih _ (hstep st e.1 e.2 rest hs' (by rw [hq]) h)

theorem crawlLoop_add (render : Render) (kws : List (List Char)) (cfg : CrawlConfig) (a b : Nat) (st : CrawlState) :
    crawlLoop render kws cfg (a + b) st = crawlLoop render kws cfg b (crawlLoop render kws cfg a st) := by
  induction a generalizing st with
  | zero => rw [crawlLoop_zero, Nat.zero_add]
  | succ n ih =>
    by_cases hs : st.stop = true
    · rw [crawlLoop_stop hs, crawlLoop_stop hs, crawlLoop_stop hs]
    · have hs' : st.stop = false := Bool.eq_false_iff.mpr hs
      cases hq : st.queue with
      | nil => rw [crawlLoop_empty hq, crawlLoop_empty hq, crawlLoop_empty hq]
      | cons e rest =>
        rw [show n + 1 + b = (n + b) + 1 from by omega, crawlLoop_step hs' (by rw [hq]) (n + b),
          crawlLoop_step hs' (by rw [hq]) n, ih]

/-! ### Field lemmas for the iteration pieces -/

@[simp] theorem markVisited_queue (st : CrawlState) (nu : List Char) (d : Nat) :
    (markVisited st nu d).queue = st.queue := rfl

@[simp] theorem markVisited_visited (st : CrawlState) (nu : List Char) (d : Nat) :
    (markVisited st nu d).visited = pyInsert st.visited nu := rfl

@[simp] theorem markVisited_collected (st : CrawlState) (nu : List Char) (d : Nat) :
    (markVisited st nu d).collected = st.collected := rfl

@[simp] theorem markVisited_cum (st : CrawlState) (nu : List Char) (d : Nat) :
    (markVisited st nu d).cum = st.cum := rfl

@[simp] theorem markVisited_stop (st : CrawlState) (nu : List Char) (d : Nat) :
    (markVisited st nu d).stop = st.stop := rfl

@[simp] theorem markVisited_rendered (st : CrawlState) (nu : List Char) (d : Nat) :
    (markVisited st nu d).rendered = st.rendered ++ [(nu, d)] := rfl

@[simp] theorem recordPage_queue (kws cfg st nu page) :
    (recordPage kws cfg st nu page).queue = st.queue := by
  rw [recordPage]; split
  · split <;> rfl
  · rfl

@[simp] theorem recordPage_visited (kws cfg st nu page) :
    (recordPage kws cfg st nu page).visited = st.visited := by
  rw [recordPage]; split
  · split <;> rfl
  · rfl

@[simp] theorem recordPage_rendered (kws cfg st nu page) :
    (recordPage kws cfg st nu page).rendered = st.rendered := by
  rw [recordPage]; split
  · split <;> rfl
  · rfl

@[simp] theorem expandLinks_visited (cfg st d page) :
    (expandLinks cfg st d page).visited = st.visited := by
  rw [expandLinks]; split <;> rfl

@[simp] theorem expandLinks_collected (cfg st d page) :
    (expandLinks cfg st d page).collected = st.collected := by
  rw [expandLinks]; split <;> rfl

@[simp] theorem expandLinks_cum (cfg st d page) :
    (expandLinks cfg st d page).cum = st.cum := by
  rw [expandLinks]; split <;> rfl

@[simp] theorem expandLinks_stop (cfg st d page) :
    (expandLinks cfg st d page).stop = st.stop := by
  rw [expandLinks]; split <;> rfl

@[simp] theorem expandLinks_rendered (cfg st d page) :
    (expandLinks cfg st d page).rendered = st.rendered := by
  rw [expandLinks]; split <;> rfl

/-- The rendered trace never shrinks in one iteration, and grows by at most
the one `(normalizedUrl, depth)` goto event of this iteration. -/
theorem stepTarget_rendered_cases (render kws cfg st u d) :
    (stepTarget render kws cfg st u d).rendered = st.rendered ∨
      ((stepTarget render kws cfg st u d).rendered
          = st.rendered ++ [(normalize_url cfg.baseUrl u, d)]
        ∧ u ∉ st.visited ∧ ¬ (d : Int) > cfg.maxDepth ∧ normalize_url cfg.baseUrl u ≠ []) := by
  rcases stepTarget_cases render kws cfg st u d with h | ⟨h1, h2, h3, h | ⟨pg, hr, hv, h⟩⟩
  · rw [h]; exact Or.inl rfl
  · rw [h]; exact Or.inr ⟨by simp, h1, h2, h3⟩
  · rw [h]; exact Or.inr ⟨by simp, h1, h2, h3⟩

/-- What one iteration does to the record-related state: either nothing, or it
appends exactly the popped page's record (score ≥ minScore, computed by the
Relevance Scorer on the rendered content), adds the score to the cumulative
total, and sets `stop_crawling` iff the new total reaches the threshold. -/
theorem stepTarget_collected_cases (render kws cfg st u d) :
    ((stepTarget render kws cfg st u d).collected = st.collected
      ∧ (stepTarget render kws cfg st u d).cum = st.cum
      ∧ (stepTarget render kws cfg st u d).stop = st.stop) ∨
    (∃ pg, render (normalize_url cfg.baseUrl u) = some pg ∧ pg.valid = true
      ∧ (check_relevance kws pg.content : Int) ≥ cfg.minScore
      ∧ (stepTarget render kws cfg st u d).collected = st.collected
          ++ [⟨normalize_url cfg.baseUrl u, pg.title, pg.content,
                check_relevance kws pg.content⟩]
      ∧ (stepTarget render kws cfg st u d).cum = st.cum + check_relevance kws pg.content
      ∧ (stepTarget render kws cfg st u d).rendered
          = st.rendered ++ [(normalize_url cfg.baseUrl u, d)]
      ∧ ¬ (d : Int) > cfg.maxDepth
      ∧ (stepTarget render kws cfg st u d).stop
          = (if ((st.cum + check_relevance kws pg.content : Nat) : Int) ≥ cfg.threshold
             then true else st.stop)) := by
  rcases stepTarget_cases render kws cfg st u d with h | ⟨h1, h2, h3, h | ⟨pg, hr, hv, h⟩⟩
  · rw [h]; exact Or.inl ⟨rfl, rfl, rfl⟩
  · rw [h]; exact Or.inl ⟨by simp, by simp, by simp⟩
  · rcases recordPage_cases kws cfg (markVisited st (normalize_url cfg.baseUrl u) d)
        (normalize_url cfg.baseUrl u) pg with ⟨hrec, hlow⟩ | ⟨hsc, hrec⟩
    · rw [h, hrec]
      exact Or.inl ⟨by simp, by simp, by simp⟩
    · rw [h, hrec]
      exact Or.inr ⟨pg, hr, hv, hsc, by simp, by simp, by simp, h2, by simp⟩

/-- One iteration never decreases `cumulative_score`. -/
theorem stepTarget_cum_le (render kws cfg st u d) :
    st.cum ≤ (stepTarget render kws cfg st u d).cum := by
  rcases stepTarget_collected_cases render kws cfg st u d with ⟨-, h, -⟩ | ⟨pg, -, -, -, -, h, -⟩
  · omega
  · omega

/-- Loop invariant: every collected record scores at least `min_score`. -/
theorem crawlLoop_minScore (render kws cfg) (fuel : Nat) (st : CrawlState)
    (h : ∀ r ∈ st.collected, (r.relevance_score : Int) ≥ cfg.minScore) :
    ∀ r ∈ (crawlLoop render kws cfg fuel st).collected,
      (r.relevance_score : Int) ≥ cfg.minScore := by
  refine crawlLoop_inv (fun s => ∀ r ∈ s.collected, (r.relevance_score : Int) ≥ cfg.minScore)
    ?_ fuel st h
  intro st u d rest _ _ hP
  rcases stepTarget_collected_cases render kws cfg { st with queue := rest } u d with
    ⟨hc, -, -⟩ | ⟨pg, -, -, hsc, hc, -⟩
  · rw [hc]; exact hP
  · rw [hc]
    intro r hr
    rcases List.mem_append.mp hr with hr | hr
    · exact hP r hr
    · rw [List.mem_singleton.mp hr]
      exact hsc

/-- Loop invariant: `cumulative_score` equals the sum of collected scores. -/
theorem crawlLoop_cum_eq (render kws cfg) (fuel : Nat) (st : CrawlState)
    (h : st.cum = sumScores st.collected) :
    (crawlLoop render kws cfg fuel st).cum
      = sumScores (crawlLoop render kws cfg fuel st).collected := by
  refine crawlLoop_inv (fun s => s.cum = sumScores s.collected) ?_ fuel st h
  intro st u d rest _ _ hP
  rcases stepTarget_collected_cases render kws cfg { st with queue := rest } u d with
    ⟨hc, hcum, -⟩ | ⟨pg, -, -, -, hc, hcum, -⟩
  · rw [hc, hcum]; exact hP
  · rw [hc, hcum, sumScores_append, hP]
    simp [sumScores]

/-- Loop invariant: `cumulative_score` is monotonically non-decreasing. -/
theorem crawlLoop_cum_mono (render kws cfg) (fuel : Nat) (st : CrawlState) :
    st.cum ≤ (crawlLoop render kws cfg fuel st).cum := by
  refine crawlLoop_inv (fun s => st.cum ≤ s.cum) ?_ fuel st (Nat.le_refl _)
  intro st' u d rest _ _ hP
  exact hP.trans (stepTarget_cum_le render kws cfg { st' with queue := rest } u d)

/-- Loop invariant for the two-sided threshold property (needs a positive
threshold): while running, the cumulative score is below the threshold; once
stopped, it is at or above it and was below it before the last record. -/
theorem crawlLoop_threshold_inv (render kws cfg) (fuel : Nat)
    (st : CrawlState)
    (h : st.cum = sumScores st.collected
      ∧ (st.stop = false → (st.cum : Int) < cfg.threshold)
      ∧ (st.stop = true → (st.cum : Int) ≥ cfg.threshold
          ∧ (sumScores st.collected.dropLast : Int) < cfg.threshold)) :
    (crawlLoop render kws cfg fuel st).cum
        = sumScores (crawlLoop render kws cfg fuel st).collected
      ∧ ((crawlLoop render kws cfg fuel st).stop = false →
          ((crawlLoop render kws cfg fuel st).cum : Int) < cfg.threshold)
      ∧ ((crawlLoop render kws cfg fuel st).stop = true →
          ((crawlLoop render kws cfg fuel st).cum : Int) ≥ cfg.threshold
            ∧ (sumScores (crawlLoop render kws cfg fuel st).collected.dropLast : Int)
                < cfg.threshold) := by
  refine crawlLoop_inv (fun s => s.cum = sumScores s.collected
      ∧ (s.stop = false → (s.cum : Int) < cfg.threshold)
      ∧ (s.stop = true → (s.cum : Int) ≥ cfg.threshold
          ∧ (sumScores s.collected.dropLast : Int) < cfg.threshold)) ?_ fuel st h
  intro st u d rest hstop _ hP
  obtain ⟨hsum, hrun, -⟩ := hP
  have ecum : ({ st with queue := rest } : CrawlState).cum = st.cum := rfl
  have ecol : ({ st with queue := rest } : CrawlState).collected = st.collected := rfl
  have estop : ({ st with queue := rest } : CrawlState).stop = st.stop := rfl
  rcases stepTarget_collected_cases render kws cfg { st with queue := rest } u d with
    ⟨hc, hcum, hsflag⟩ | ⟨pg, -, -, -, hc, hcum, -, -, hsflag⟩ <;>
    rw [ecum] at hcum <;> rw [ecol] at hc <;> rw [estop] at hsflag
  · rw [hc, hcum, hsflag]
    exact ⟨hsum, fun _ => hrun hstop, fun habs => by rw [hstop] at habs; cases habs⟩
  · rw [hc, hcum, hsflag]
    refine ⟨by rw [sumScores_append, hsum]; simp [sumScores], ?_, ?_⟩
    · intro hfalse
      by_cases ht : ((st.cum + check_relevance kws pg.content : Nat) : Int) ≥ cfg.threshold
      · rw [if_pos ht] at hfalse; cases hfalse
      · omega
    · intro htrue
      by_cases ht : ((st.cum + check_relevance kws pg.content : Nat) : Int) ≥ cfg.threshold
      · refine ⟨ht, ?_⟩
        rw [List.dropLast_concat, ← hsum]
        exact hrun hstop
      · rw [if_neg ht, hstop] at htrue; cases htrue

/-- Loop invariant: every rendered target's depth is within `max_depth`. -/
theorem crawlLoop_rendered_depth (render kws cfg) (fuel : Nat) (st : CrawlState)
    (h : ∀ p ∈ st.rendered, (p.2 : Int) ≤ cfg.maxDepth) :
    ∀ p ∈ (crawlLoop render kws cfg fuel st).rendered, (p.2 : Int) ≤ cfg.maxDepth := by
  refine crawlLoop_inv (fun s => ∀ p ∈ s.rendered, (p.2 : Int) ≤ cfg.maxDepth) ?_ fuel st h
  intro st u d rest _ _ hP
  rcases stepTarget_rendered_cases render kws cfg { st with queue := rest } u d with
    hr | ⟨hr, -, hd, -⟩
  · rw [hr]; exact hP
  · rw [hr]
    intro p hp
    rcases List.mem_append.mp hp with hp | hp
    · exact hP p hp
    · rw [List.mem_singleton.mp hp]
      omega

/-- Loop invariant: every collected record's URL was rendered, at some depth. -/
theorem crawlLoop_collected_rendered (render kws cfg) (fuel : Nat) (st : CrawlState)
    (h : ∀ r ∈ st.collected, ∃ dd, (r.url, dd) ∈ st.rendered) :
    ∀ r ∈ (crawlLoop render kws cfg fuel st).collected,
      ∃ dd, (r.url, dd) ∈ (crawlLoop render kws cfg fuel st).rendered := by
  refine crawlLoop_inv (fun s => ∀ r ∈ s.collected, ∃ dd, (r.url, dd) ∈ s.rendered) ?_ fuel st h
  intro st u d rest _ _ hP
  have hmono : ∀ p, p ∈ ({ st with queue := rest } : CrawlState).rendered →
      p ∈ (stepTarget render kws cfg { st with queue := rest } u d).rendered := by
    intro p hp
    rcases stepTarget_rendered_cases render kws cfg { st with queue := rest } u d with
      hr | ⟨hr, -⟩
    · rw [hr]; exact hp
    · rw [hr]; exact List.mem_append.mpr (Or.inl hp)
  rcases stepTarget_collected_cases render kws cfg { st with queue := rest } u d with
    ⟨hc, -, -⟩ | ⟨pg, -, -, -, hc, -, hrend, -, -⟩
  · rw [hc]
    intro r hr
    obtain ⟨dd, hdd⟩ := hP r hr
    exact ⟨dd, hmono _ hdd⟩
  · rw [hc]
    intro r hr
    rcases List.mem_append.mp hr with hr | hr
    · obtain ⟨dd, hdd⟩ := hP r hr
      exact ⟨dd, hmono _ hdd⟩
    · rw [List.mem_singleton.mp hr, hrend]
      exact ⟨d, List.mem_append.mpr (Or.inr (by simp))⟩

/-- A stopped iteration leaves the frontier alone (link expansion is guarded
by `not stop_crawling`). -/
theorem stepTarget_queue_spec (render : Render) (kws : List (List Char)) (cfg : CrawlConfig)
    (st : CrawlState) (u : List Char) (d : Nat)
    (h : (stepTarget render kws cfg st u d).stop = true) :
    (stepTarget render kws cfg st u d).queue = st.queue := by
  rcases stepTarget_cases render kws cfg st u d with heq | ⟨h1, h2, h3, heq | ⟨pg, hr, hv, heq⟩⟩
  · rw [heq]
  · rw [heq]; simp
  · rcases expandLinks_cases cfg
        (recordPage kws cfg (markVisited st (normalize_url cfg.baseUrl u) d)
          (normalize_url cfg.baseUrl u) pg) d pg with he | ⟨-, hstop, he⟩
    · rw [heq, he]; simp
    · rw [heq, he] at h
      have h' : (recordPage kws cfg (markVisited st (normalize_url cfg.baseUrl u) d)
          (normalize_url cfg.baseUrl u) pg).stop = true := h
      rw [hstop] at h'
      cases h'

/-- When an iteration sets the stop flag (from a running state), it is because
the popped page was recorded and the new cumulative score reached the
threshold — and that page's links were not enqueued. -/
theorem stepTarget_stop_set {render : Render} {kws : List (List Char)} {cfg : CrawlConfig}
    {st : CrawlState} {u : List Char} {d : Nat} (hs : st.stop = false)
    (h : (stepTarget render kws cfg st u d).stop = true) :
    (stepTarget render kws cfg st u d).queue = st.queue
      ∧ ((stepTarget render kws cfg st u d).cum : Int) ≥ cfg.threshold
      ∧ (stepTarget render kws cfg st u d).collected.length = st.collected.length + 1 := by
  rcases stepTarget_collected_cases render kws cfg st u d with
    ⟨-, -, hsflag⟩ | ⟨pg, -, -, -, hc, hcum, -, -, hsflag⟩
  · rw [hsflag, hs] at h; cases h
  · by_cases ht : ((st.cum + check_relevance kws pg.content : Nat) : Int) ≥ cfg.threshold
    · exact ⟨stepTarget_queue_spec render kws cfg st u d h, by rw [hcum]; exact ht,
        by rw [hc]; simp⟩
    · rw [hsflag, if_neg ht, hs] at h; cases h

/-- When an iteration records a page (from a running state), the stop flag is
set exactly when the new cumulative score reaches the threshold. -/
theorem stepTarget_stop_iff {render : Render} {kws : List (List Char)} {cfg : CrawlConfig}
    {st : CrawlState} {u : List Char} {d : Nat} (hs : st.stop = false)
    (hch : (stepTarget render kws cfg st u d).collected ≠ st.collected) :
    ((stepTarget render kws cfg st u d).stop = true
      ↔ ((stepTarget render kws cfg st u d).cum : Int) ≥ cfg.threshold) := by
  rcases stepTarget_collected_cases render kws cfg st u d with
    ⟨hc, -, -⟩ | ⟨pg, -, -, -, hc, hcum, -, -, hsflag⟩
  · exact absurd hc hch
  · rw [hsflag, hcum]
    by_cases ht : ((st.cum + check_relevance kws pg.content : Nat) : Int) ≥ cfg.threshold
    · rw [if_pos ht]
      exact Iff.intro (fun _ => ht) (fun _ => rfl)
    · rw [if_neg ht, hs]
      exact Iff.intro (fun hfalse => by cases hfalse) (fun habs => absurd habs ht)

/-- Shape of the frontier after one iteration: either unchanged, or extended
at the back with the popped page's partitioned child links (same-origin block
first, then the cross-origin block), the entries already in the queue staying
in front. -/
theorem stepTarget_queue_cases (render : Render) (kws : List (List Char)) (cfg : CrawlConfig)
    (st : CrawlState) (u : List Char) (d : Nat) :
    (stepTarget render kws cfg st u d).queue = st.queue ∨
      ∃ pg, render (normalize_url cfg.baseUrl u) = some pg ∧ pg.valid = true
        ∧ (d : Int) < cfg.maxDepth
        ∧ (stepTarget render kws cfg st u d).queue
            = st.queue
              ++ (partition_links cfg.baseDomain
                    (pyInsert st.visited (normalize_url cfg.baseUrl u)) d
                    (extract_links cfg.baseUrl pg.links)).1
              ++ (partition_links cfg.baseDomain
                    (pyInsert st.visited (normalize_url cfg.baseUrl u)) d
                    (extract_links cfg.baseUrl pg.links)).2 := by
  rcases stepTarget_cases render kws cfg st u d with heq | ⟨h1, h2, h3, heq | ⟨pg, hr, hv, heq⟩⟩
  · rw [heq]; exact Or.inl rfl
  · rw [heq]; exact Or.inl (by simp)
  · rcases expandLinks_cases cfg
        (recordPage kws cfg (markVisited st (normalize_url cfg.baseUrl u) d)
          (normalize_url cfg.baseUrl u) pg) d pg with he | ⟨hd, -, he⟩
    · rw [heq, he]; exact Or.inl (by simp)
    · rw [heq, he]
      refine Or.inr ⟨pg, hr, hv, hd, ?_⟩
      simp

/-- The entries already in the frontier stay, in order, in front of anything
one iteration appends. -/
theorem stepTarget_queue_prefix (render : Render) (kws : List (List Char)) (cfg : CrawlConfig)
    (st : CrawlState) (u : List Char) (d : Nat) :
    st.queue <+: (stepTarget render kws cfg st u d).queue := by
  rcases stepTarget_queue_cases render kws cfg st u d with h | ⟨pg, -, -, -, h⟩
  · rw [h]
  · rw [h]
    exact (List.prefix_append st.queue _).trans (List.prefix_append _ _)

/-- New frontier entries carry depth `d + 1` and are enqueued only when the
popped page's depth is strictly below `max_depth`. -/
theorem stepTarget_queue_new (render : Render) (kws : List (List Char)) (cfg : CrawlConfig)
    (st : CrawlState) (u : List Char) (d : Nat) :
    ∀ e ∈ (stepTarget render kws cfg st u d).queue,
      e ∈ st.queue ∨ ((d : Int) < cfg.maxDepth ∧ e.2 = d + 1) := by
  intro e he
  rcases stepTarget_queue_cases render kws cfg st u d with h | ⟨pg, -, -, hd, h⟩
  · rw [h] at he; exact Or.inl he
  · rw [h] at he
    rcases List.mem_append.mp he with he' | he'
    · rcases List.mem_append.mp he' with he'' | he''
      · exact Or.inl he''
      · exact Or.inr ⟨hd, (partition_links_mem (List.mem_append.mpr (Or.inl he''))).1⟩
    · exact Or.inr ⟨hd, (partition_links_mem (List.mem_append.mpr (Or.inr he'))).1⟩

/-- The visited set after one iteration: unchanged, or with the popped
normalized URL inserted. -/
theorem stepTarget_visited_cases (render : Render) (kws : List (List Char)) (cfg : CrawlConfig)
    (st : CrawlState) (u : List Char) (d : Nat) :
    (stepTarget render kws cfg st u d).visited = st.visited ∨
      (stepTarget render kws cfg st u d).visited
        = pyInsert st.visited (normalize_url cfg.baseUrl u) := by
  rcases stepTarget_cases render kws cfg st u d with heq | ⟨-, -, -, heq | ⟨pg, -, -, heq⟩⟩
  · rw [heq]; exact Or.inl rfl
  · rw [heq]; exact Or.inr (by simp)
  · rw [heq]; exact Or.inr (by simp)

/-- The visited set only grows (and grows by appending: the previous set is a
prefix of the new one). -/
theorem crawlLoop_visited_prefix (render kws cfg) (fuel : Nat) (st : CrawlState) :
    st.visited <+: (crawlLoop render kws cfg fuel st).visited := by
  refine crawlLoop_inv (fun s => st.visited <+: s.visited) ?_ fuel st List.prefix_rfl
  intro st' u d rest _ _ hP
  refine hP.trans ?_
  rcases stepTarget_visited_cases render kws cfg { st' with queue := rest } u d with h | h
  · rw [h]
  · rw [h]
    exact prefix_pyInsert _ _

/-- The crawl's `base_url` has an `http(s)` scheme (true for every seed with
an `http(s)` scheme and for schemeless seeds, by lines 31–43). -/
def httpish (b : List Char) : Prop :=
  "http://".data.isPrefixOf b = true ∨ "https://".data.isPrefixOf b = true

/-- Every link produced by `_extract_links` over an `http(s)` base is a fixed
point of `_normalize_url`. -/
theorem extract_links_fixed {b : List Char} (hb : httpish b) {hrefs : List (List Char)} :
    ∀ l ∈ extract_links b hrefs, normalize_url b l = l := by
  intro l hl
  obtain ⟨hne, h, heq⟩ := extract_links_mem l hl
  rw [heq]
  exact normalize_url_idem hb h (by rw [← heq]; exact hne)

/-- The de-duplication invariant of the visited set and the rendered trace:
the visited set has no duplicates, every rendered URL is in it, no URL is
rendered twice, and (away from the freshly seeded state) every frontier entry
is a normalize fixed point or invalid. -/
def VisInv (cfg : CrawlConfig) (st : CrawlState) : Prop :=
  st.visited.Nodup
    ∧ (∀ p ∈ st.rendered, p.1 ∈ st.visited)
    ∧ (st.rendered.map Prod.fst).Nodup
    ∧ ((∀ e ∈ st.queue, normalize_url cfg.baseUrl e.1 = e.1
          ∨ normalize_url cfg.baseUrl e.1 = [])
        ∨ (st.visited = [] ∧ st.rendered = [] ∧ st.queue.length ≤ 1))

theorem crawlLoop_VisInv {render : Render} {kws : List (List Char)} {cfg : CrawlConfig}
    (hb : httpish cfg.baseUrl) (fuel : Nat) (st : CrawlState) (h : VisInv cfg st) :
    VisInv cfg (crawlLoop render kws cfg fuel st) := by
  refine crawlLoop_inv (VisInv cfg) ?_ fuel st h
  intro st u d rest _ hqe hP
  obtain ⟨hnd, hsub, hrnd, hqok⟩ := hP
  have hrest : ∀ e ∈ rest, normalize_url cfg.baseUrl e.1 = e.1
      ∨ normalize_url cfg.baseUrl e.1 = [] := by
    rcases hqok with hA | ⟨-, -, hlen⟩
    · exact fun e he => hA e (by rw [hqe]; exact List.mem_cons_of_mem _ he)
    · have hnil : rest = [] := by
        rw [hqe] at hlen
        simp only [List.length_cons] at hlen
        exact List.eq_nil_of_length_eq_zero (by omega)
      rw [hnil]
      intro e he
      cases he
  have hu : normalize_url cfg.baseUrl u = u ∨ normalize_url cfg.baseUrl u = []
      ∨ (st.visited = [] ∧ st.rendered = []) := by
    rcases hqok with hA | ⟨hv0, hr0, -⟩
    · rcases hA (u, d) (by rw [hqe]; exact List.mem_cons_self _ _) with h | h
      · exact Or.inl h
      · exact Or.inr (Or.inl h)
    · exact Or.inr (Or.inr ⟨hv0, hr0⟩)
  rcases stepTarget_cases render kws cfg { st with queue := rest } u d with
    heq | ⟨h1, h2, h3, hrem⟩
  · rw [heq]
    exact ⟨hnd, hsub, hrnd, Or.inl hrest⟩
  · have h1' : u ∉ st.visited := h1
    have hnotv : normalize_url cfg.baseUrl u ∉ st.visited := by
      rcases hu with hfix | hinv | ⟨hv0, -⟩
      · rw [hfix]; exact h1'
      · exact absurd hinv h3
      · rw [hv0]; exact List.not_mem_nil _
    have hnotr : normalize_url cfg.baseUrl u ∉ st.rendered.map Prod.fst := by
      intro hmem
      rcases List.mem_map.mp hmem with ⟨p, hp, hfst⟩
      exact hnotv (hfst ▸ hsub p hp)
    have hvis : (stepTarget render kws cfg { st with queue := rest } u d).visited
        = pyInsert st.visited (normalize_url cfg.baseUrl u) := by
      rcases hrem with heq | ⟨pg, hr, hv, heq⟩ <;> rw [heq] <;> simp
    have hren : (stepTarget render kws cfg { st with queue := rest } u d).rendered
        = st.rendered ++ [(normalize_url cfg.baseUrl u, d)] := by
      rcases hrem with heq | ⟨pg, hr, hv, heq⟩ <;> rw [heq] <;> simp
    refine ⟨?_, ?_, ?_, ?_⟩
    · rw [hvis]
      exact nodup_pyInsert _ hnd
    · rw [hvis, hren]
      intro p hp
      rcases List.mem_append.mp hp with hp | hp
      · exact mem_pyInsert.mpr (Or.inl (hsub p hp))
      · rw [List.mem_singleton.mp hp]
        exact self_mem_pyInsert _ _
    · rw [hren, List.map_append]
      simp only [List.map_cons, List.map_nil]
      rw [List.nodup_append]
      exact ⟨hrnd, List.nodup_singleton _,
        fun a ha hb => hnotr (by rwa [List.mem_singleton.mp hb] at ha)⟩
    · rcases stepTarget_queue_cases render kws cfg { st with queue := rest } u d with
        hq | ⟨pg, -, -, -, hq⟩
      · rw [hq]
        exact Or.inl hrest
      · rw [hq]
        refine Or.inl ?_
        intro e he
        rcases List.mem_append.mp he with he2 | he2
        · rcases List.mem_append.mp he2 with he3 | he3
          · exact hrest e he3
          · exact Or.inl (extract_links_fixed hb e.1
              (partition_links_mem (List.mem_append.mpr (Or.inl he3))).2.1)
        · exact Or.inl (extract_links_fixed hb e.1
            (partition_links_mem (List.mem_append.mpr (Or.inr he2))).2.1)

/-- A rendered URL's entry in the trace is either old, or its URL was put in
the visited set by the same iteration that rendered it (visited-before-render). -/
theorem stepTarget_rendered_visited (render : Render) (kws : List (List Char))
    (cfg : CrawlConfig) (st : CrawlState) (u : List Char) (d : Nat) :
    ∀ p ∈ (stepTarget render kws cfg st u d).rendered,
      p ∈ st.rendered ∨ p.1 ∈ (stepTarget render kws cfg st u d).visited := by
  intro p hp
  rcases stepTarget_cases render kws cfg st u d with heq | ⟨h1, h2, h3, hrem⟩
  · rw [heq] at hp; exact Or.inl hp
  · have hvis : (stepTarget render kws cfg st u d).visited
        = pyInsert st.visited (normalize_url cfg.baseUrl u) := by
      rcases hrem with heq | ⟨pg, hr, hv, heq⟩ <;> rw [heq] <;> simp
    have hren : (stepTarget render kws cfg st u d).rendered
        = st.rendered ++ [(normalize_url cfg.baseUrl u, d)] := by
      rcases hrem with heq | ⟨pg, hr, hv, heq⟩ <;> rw [heq] <;> simp
    rw [hren] at hp
    rcases List.mem_append.mp hp with hp | hp
    · exact Or.inl hp
    · rw [List.mem_singleton.mp hp, hvis]
      exact Or.inr (self_mem_pyInsert _ _)

/-! ### Concrete crawl scenarios -/

def repList (l : List Char) : Nat → List Char
  | 0 => []
  | n + 1 => l ++ repList l n

/-- A 600-character page body scoring 80 against keyword `kw`
(14 word-bounded occurrences, one in the first 500 characters, no short
lines: base 14·2 + 14·3 + 10 = 80, no length adjustment at 600). -/
def content80 : List Char := repList "kw ".data 14 ++ List.replicate 558 'a'

/-- A 600-character page body scoring 90 (16 occurrences). -/
def content90 : List Char := repList "kw ".data 16 ++ List.replicate 552 'a'

/-- A 600-character page body scoring 95 (17 occurrences). -/
def content95 : List Char := repList "kw ".data 17 ++ List.replicate 549 'a'

def kws1 : List (List Char) := ["kw".data]

/-- The §8 end-to-end configuration: maxDepth 1, minScore 60, threshold 150,
seed origin `https://a.com`. -/
def cfg1 : CrawlConfig := ⟨"https://a.com".data, "a.com".data, 1, 60, 150⟩

/-- The deterministic renderer of the §8 scenario: a seed page (content too
short to score) linking three same-origin pages scoring 80, 90 and 95. -/
def render1 : Render := fun u =>
  if u = "https://a.com".data then
    some ⟨true, "Seed".data, "short".data, ["/p1".data, "/p2".data, "/p3".data]⟩
  else if u = "https://a.com/p1".data then some ⟨true, "P1".data, content80, []⟩
  else if u = "https://a.com/p2".data then some ⟨true, "P2".data, content90, []⟩
  else if u = "https://a.com/p3".data then some ⟨true, "P3".data, content95, []⟩
  else none

def pd80 : PageData := ⟨"https://a.com/p1".data, "P1".data, content80, 80⟩
def pd90 : PageData := ⟨"https://a.com/p2".data, "P2".data, content90, 90⟩

theorem scenario1_final :
    crawlFinal render1 kws1 cfg1 "https://a.com".data 5 =
      ⟨[("https://a.com/p3".data, 1)],
       ["https://a.com".data, "https://a.com/p1".data, "https://a.com/p2".data],
       [pd80, pd90], 170, true,
       [("https://a.com".data, 0), ("https://a.com/p1".data, 1),
        ("https://a.com/p2".data, 1)]⟩ := by
  decide

theorem scenario1_records :
    crawl_with_score_criteria render1 kws1 cfg1 "https://a.com".data 5 = [pd90, pd80] := by
  rw [crawl_with_score_criteria, scenario1_final]
  decide

/-- A degenerate configuration with `cumulative_score_threshold = 0` and
`min_score = 0`. -/
def cfg2 : CrawlConfig := ⟨"https://a.com".data, "a.com".data, 0, 0, 0⟩

def render2 : Render := fun u =>
  if u = "https://a.com".data then some ⟨true, "T".data, "hi".data, []⟩ else none

def pd0 : PageData := ⟨"https://a.com".data, "T".data, "hi".data, 0⟩

theorem scenario2_final :
    crawlFinal render2 kws1 cfg2 "https://a.com".data 3 =
      ⟨[], ["https://a.com".data], [pd0], 0, true, [("https://a.com".data, 0)]⟩ := by
  decide

/-- The `ftp://` seed scenario: the Origin Context of seed `ftp://a.com/x` is
`base_url = "ftp://a.com"`; normalizing the seed yields
`ftp://a.com/ftp://a.com/x`, whose page links `/x`, which normalizes back to
the seed's raw spelling. -/
def cfgF : CrawlConfig := ⟨"ftp://a.com".data, "a.com".data, 1, 60, 150⟩

def renderF : Render := fun u =>
  if u = "ftp://a.com/ftp://a.com/x".data then
    some ⟨true, "T".data, "x".data, ["/x".data]⟩
  else none

theorem scenarioF_final :
    crawlFinal renderF kws1 cfgF "ftp://a.com/x".data 4 =
      ⟨[], ["ftp://a.com/ftp://a.com/x".data], [], 0, false,
       [("ftp://a.com/ftp://a.com/x".data, 0), ("ftp://a.com/ftp://a.com/x".data, 1)]⟩ := by
  decide

/-! ### The claims -/

/-- C1: as soon as a recorded page's score makes the cumulative score reach
the threshold, the iteration sets the stop flag without enqueuing that page's
links, and a stopped loop dequeues and renders nothing further; on the §8
scenario (three same-origin pages scoring 80/90/95, minScore 60, threshold
150, maxDepth 1) the crawl stops after the second recorded page (80+90=170),
never fetches the third, and returns the two records ordered [90, 80]. -/
theorem C1_cumulative_threshold_stop :
    (∀ (render : Render) (kws : List (List Char)) (cfg : CrawlConfig) (fuel : Nat)
        (st : CrawlState), st.stop = true → crawlLoop render kws cfg fuel st = st)
  ∧ (∀ (render : Render) (kws : List (List Char)) (cfg : CrawlConfig) (st : CrawlState)
        (u : List Char) (d : Nat), st.stop = false →
        (stepTarget render kws cfg st u d).stop = true →
        (stepTarget render kws cfg st u d).queue = st.queue
          ∧ ((stepTarget render kws cfg st u d).cum : Int) ≥ cfg.threshold
          ∧ (stepTarget render kws cfg st u d).collected.length = st.collected.length + 1)
  ∧ (∀ (render : Render) (kws : List (List Char)) (cfg : CrawlConfig) (st : CrawlState)
        (u : List Char) (d : Nat), st.stop = false →
        (stepTarget render kws cfg st u d).collected ≠ st.collected →
        ((stepTarget render kws cfg st u d).stop = true
          ↔ ((stepTarget render kws cfg st u d).cum : Int) ≥ cfg.threshold))
  ∧ crawl_with_score_criteria render1 kws1 cfg1 "https://a.com".data 5 = [pd90, pd80]
  ∧ (crawlFinal render1 kws1 cfg1 "https://a.com".data 5).rendered
      = [("https://a.com".data, 0), ("https://a.com/p1".data, 1),
         ("https://a.com/p2".data, 1)]
  ∧ (crawlFinal render1 kws1 cfg1 "https://a.com".data 5).cum = 170 :=
  ⟨fun _ _ _ fuel _ h => crawlLoop_stop h fuel,
   fun _ _ _ _ _ _ hs h => stepTarget_stop_set hs h,
   fun _ _ _ _ _ _ hs hch => stepTarget_stop_iff hs hch,
   scenario1_records,
   by rw [scenario1_final],
   by rw [scenario1_final]⟩

/-- Witness for C1: a stopped loop returns its state unchanged. -/
theorem C1_witness :
    crawlLoop render1 kws1 cfg1 3
        ⟨[("https://a.com/p3".data, 1)], [], [], 170, true, []⟩
      = ⟨[("https://a.com/p3".data, 1)], [], [], 170, true, []⟩ :=
  C1_cumulative_threshold_stop.1 render1 kws1 cfg1 3 _ rfl

/-- C2 counterexample: with `cumulative_score_threshold = 0` (and
`min_score = 0`), a seed page scoring 0 is recorded and the crawl stops with
one record, although the empty prefix already has sum ≥ 0 — so the returned
records are not the first prefix whose sum reaches the threshold, and the
frontier was not exhausted before such a prefix existed. -/
theorem C2_cex :
    ¬ (((sumScores (crawlFinal render2 kws1 cfg2 "https://a.com".data 3).collected : Int)
          ≥ cfg2.threshold
        ∧ ∀ k < (crawlFinal render2 kws1 cfg2 "https://a.com".data 3).collected.length,
            ((sumScores ((crawlFinal render2 kws1 cfg2 "https://a.com".data 3).collected.take k)
              : Nat) : Int) < cfg2.threshold)
      ∨ ((crawlFinal render2 kws1 cfg2 "https://a.com".data 3).queue = []
          ∧ ((sumScores (crawlFinal render2 kws1 cfg2 "https://a.com".data 3).collected
              : Nat) : Int) < cfg2.threshold)) := by
  rw [scenario2_final]
  decide

/-- C2 (amended): at every point the cumulative score equals the sum of the
records produced so far and is monotonically non-decreasing; the returned
(sorted) records' scores sum to the final cumulative score; and — provided
`cumulativeScoreThreshold ≥ 1` — a stopped crawl's records are the first
prefix, in discovery order, whose sum reaches the threshold, while an
exhausted crawl never reached it on any prefix.  (For thresholds ≤ 0 the code
still records one page before stopping even though the empty prefix already
qualifies.) -/
theorem C2_cumulative_score_sum :
    (∀ (render : Render) (kws : List (List Char)) (cfg : CrawlConfig) (s : List Char)
        (m : Nat),
        (crawlLoop render kws cfg m (initState s)).cum
          = sumScores (crawlLoop render kws cfg m (initState s)).collected)
  ∧ (∀ (render : Render) (kws : List (List Char)) (cfg : CrawlConfig) (s : List Char)
        (m k : Nat),
        (crawlLoop render kws cfg m (initState s)).cum
          ≤ (crawlLoop render kws cfg (m + k) (initState s)).cum)
  ∧ (∀ (render : Render) (kws : List (List Char)) (cfg : CrawlConfig) (s : List Char)
        (fuel : Nat),
        sumScores (crawl_with_score_criteria render kws cfg s fuel)
          = (crawlFinal render kws cfg s fuel).cum)
  ∧ (∀ (render : Render) (kws : List (List Char)) (cfg : CrawlConfig) (s : List Char)
        (fuel : Nat), 1 ≤ cfg.threshold →
        ((crawlFinal render kws cfg s fuel).stop = true →
          ((crawlFinal render kws cfg s fuel).cum : Int) ≥ cfg.threshold
            ∧ ∀ k < (crawlFinal render kws cfg s fuel).collected.length,
                ((sumScores ((crawlFinal render kws cfg s fuel).collected.take k) : Nat) : Int)
                  < cfg.threshold)
        ∧ ((crawlFinal render kws cfg s fuel).stop = false →
            (crawlFinal render kws cfg s fuel).queue = [] →
            ((crawlFinal render kws cfg s fuel).cum : Int) < cfg.threshold
              ∧ ∀ k, ((sumScores ((crawlFinal render kws cfg s fuel).collected.take k)
                  : Nat) : Int) < cfg.threshold)) := by
  refine ⟨?_, ?_, ?_, ?_⟩
  · intro render kws cfg s m
    exact crawlLoop_cum_eq render kws cfg m _ rfl
  · intro render kws cfg s m k
    rw [crawlLoop_add]
    exact crawlLoop_cum_mono render kws cfg k _
  · intro render kws cfg s fuel
    rw [crawl_with_score_criteria, sumScores_sort]
    exact (crawlLoop_cum_eq render kws cfg fuel _ rfl).symm
  · intro render kws cfg s fuel hT
    simp only [crawlFinal]
    obtain ⟨hsum, hrun, hstop⟩ := crawlLoop_threshold_inv render kws cfg fuel (initState s)
      ⟨rfl, fun _ => by
        show ((0 : Nat) : Int) < cfg.threshold
        omega,
       fun habs => by cases habs⟩
    constructor
    · intro htrue
      obtain ⟨hge, hdrop⟩ := hstop htrue
      refine ⟨hge, ?_⟩
      intro k hk
      have htk : (crawlLoop render kws cfg fuel (initState s)).collected.take k
          = (crawlLoop render kws cfg fuel (initState s)).collected.dropLast.take k := by
        rw [List.dropLast_eq_take, List.take_take]
        congr 1
        omega
      rw [htk]
      have hle := sumScores_take_le (crawlLoop render kws cfg fuel (initState s)).collected.dropLast k
      omega
    · intro hfalse _
      have hlt := hrun hfalse
      refine ⟨hlt, ?_⟩
      intro k
      have hle := sumScores_take_le (crawlLoop render kws cfg fuel (initState s)).collected k
      rw [← hsum] at hle
      omega

/-- Witness for C2: the threshold clause applied to the §8 scenario. -/
theorem C2_witness :
    ((crawlFinal render1 kws1 cfg1 "https://a.com".data 5).cum : Int) ≥ cfg1.threshold :=
  ((C2_cumulative_score_sum.2.2.2 render1 kws1 cfg1 "https://a.com".data 5 (by decide)).1
    (by rw [scenario1_final])).1

/-- C4: the frontier is a FIFO queue seeded with (startURL, 0); the loop pops
from the front; one page's links are partitioned into same-origin (base
origin a substring) and other, already-visited links dropped, and appended —
same-origin block first — behind all entries already in the queue; there is
no re-ordering after insertion. -/
theorem C4_fifo_same_origin_first :
    (∀ s : List Char, (initState s).queue = [(s, 0)])
  ∧ (∀ (bd : List Char) (vis : List (List Char)) (d : Nat) (links : List (List Char)),
      partition_links bd vis d links =
        ((links.filter (fun l => decide (l ∉ vis) && isSubstr bd l)).map (fun l => (l, d + 1)),
         (links.filter (fun l => decide (l ∉ vis) && !isSubstr bd l)).map
           (fun l => (l, d + 1))))
  ∧ (∀ (render : Render) (kws : List (List Char)) (cfg : CrawlConfig) (st : CrawlState)
        (u : List Char) (d : Nat),
      st.queue <+: (stepTarget render kws cfg st u d).queue)
  ∧ (∀ (render : Render) (kws : List (List Char)) (cfg : CrawlConfig) (st : CrawlState)
        (u : List Char) (d : Nat),
      (stepTarget render kws cfg st u d).queue = st.queue ∨
        ∃ pg, render (normalize_url cfg.baseUrl u) = some pg ∧ pg.valid = true
          ∧ (d : Int) < cfg.maxDepth
          ∧ (stepTarget render kws cfg st u d).queue
              = st.queue
                ++ (partition_links cfg.baseDomain
                      (pyInsert st.visited (normalize_url cfg.baseUrl u)) d
                      (extract_links cfg.baseUrl pg.links)).1
                ++ (partition_links cfg.baseDomain
                      (pyInsert st.visited (normalize_url cfg.baseUrl u)) d
                      (extract_links cfg.baseUrl pg.links)).2)
  ∧ (∀ (render : Render) (kws : List (List Char)) (cfg : CrawlConfig) (st : CrawlState)
        (u : List Char) (d : Nat) (rest : List (List Char × Nat)) (fuel : Nat),
      st.stop = false → st.queue = (u, d) :: rest →
      crawlLoop render kws cfg (fuel + 1) st =
        crawlLoop render kws cfg fuel
          (stepTarget render kws cfg { st with queue := rest } u d)) :=
  ⟨fun _ => rfl, partition_links_eq, stepTarget_queue_prefix, stepTarget_queue_cases,
   fun _ _ _ _ _ _ _ fuel hs hq => crawlLoop_step hs hq fuel⟩

/-- Witness for C4: the FIFO pop equation at the seeded initial state. -/
theorem C4_witness :
    crawlLoop render1 kws1 cfg1 1 (initState "https://a.com".data) =
      crawlLoop render1 kws1 cfg1 0
        (stepTarget render1 kws1 cfg1
          { initState "https://a.com".data with queue := [] } "https://a.com".data 0) :=
  C4_fifo_same_origin_first.2.2.2.2 render1 kws1 cfg1 (initState "https://a.com".data)
    "https://a.com".data 0 [] 0 rfl rfl

/-- C5 counterexample: with the `ftp://a.com/x` seed, the raw frontier entry
`ftp://a.com/x` passes the visited check (line 58 tests the raw URL) although
its normalized form `ftp://a.com/ftp://a.com/x` is already in the visited
set, so that normalized URL is rendered twice in one crawl. -/
theorem C5_cex :
    (crawlFinal renderF kws1 cfgF "ftp://a.com/x".data 4).rendered.map Prod.fst
        = ["ftp://a.com/ftp://a.com/x".data, "ftp://a.com/ftp://a.com/x".data]
      ∧ ¬ ((crawlFinal renderF kws1 cfgF "ftp://a.com/x".data 4).rendered.map
            Prod.fst).Nodup := by
  rw [scenarioF_final]
  exact ⟨rfl, by decide⟩

/-- C5 (amended): provided the crawl's `base_url` starts with `http://` or
`https://` (every `http(s)` or schemeless seed), the visited set never holds
duplicates and only grows (each earlier value a prefix of later ones), every
rendered URL is in the visited set — inserted by the iteration that rendered
it — and no normalized URL is rendered twice in one crawl.  (For other
schemes, e.g. an `ftp://` seed, a URL can be rendered twice because the
dequeue guard of line 58 checks the raw, not the normalized, URL.) -/
theorem C5_visited_set (render : Render) (kws : List (List Char)) (cfg : CrawlConfig)
    (s : List Char) (fuel : Nat) (hb : httpish cfg.baseUrl) :
    (crawlFinal render kws cfg s fuel).visited.Nodup
  ∧ ((crawlFinal render kws cfg s fuel).rendered.map Prod.fst).Nodup
  ∧ (∀ p ∈ (crawlFinal render kws cfg s fuel).rendered,
        p.1 ∈ (crawlFinal render kws cfg s fuel).visited)
  ∧ (∀ m k, (crawlLoop render kws cfg m (initState s)).visited
        <+: (crawlLoop render kws cfg (m + k) (initState s)).visited)
  ∧ (∀ (st : CrawlState) (u : List Char) (d : Nat),
        ∀ p ∈ (stepTarget render kws cfg st u d).rendered,
          p ∈ st.rendered ∨ p.1 ∈ (stepTarget render kws cfg st u d).visited) := by
  obtain ⟨h1, h2, h3, -⟩ := @crawlLoop_VisInv render kws cfg hb fuel
    (initState s) ⟨by simp [initState], by simp [initState], by simp [initState],
      Or.inr ⟨rfl, rfl, by simp [initState]⟩⟩
  refine ⟨h1, h3, h2, ?_, stepTarget_rendered_visited render kws cfg⟩
  intro m k
  rw [crawlLoop_add]
  exact crawlLoop_visited_prefix render kws cfg k _

/-- Witness for C5: the no-double-render guarantee on the §8 scenario. -/
theorem C5_witness :
    ((crawlFinal render1 kws1 cfg1 "https://a.com".data 5).rendered.map Prod.fst).Nodup :=
  (C5_visited_set render1 kws1 cfg1 "https://a.com".data 5 (Or.inr (by decide))).2.1

/-- C6: no frontier entry with depth above `max_depth` is ever rendered, so no
returned record comes from a deeper URL; and child links are enqueued only
from pages strictly below `max_depth`, each child carrying depth + 1. -/
theorem C6_depth_bound :
    (∀ (render : Render) (kws : List (List Char)) (cfg : CrawlConfig) (s : List Char)
        (fuel : Nat),
        ∀ p ∈ (crawlFinal render kws cfg s fuel).rendered, (p.2 : Int) ≤ cfg.maxDepth)
  ∧ (∀ (render : Render) (kws : List (List Char)) (cfg : CrawlConfig) (s : List Char)
        (fuel : Nat),
        ∀ r ∈ crawl_with_score_criteria render kws cfg s fuel,
          ∃ dd, (r.url, dd) ∈ (crawlFinal render kws cfg s fuel).rendered
            ∧ (dd : Int) ≤ cfg.maxDepth)
  ∧ (∀ (render : Render) (kws : List (List Char)) (cfg : CrawlConfig) (st : CrawlState)
        (u : List Char) (d : Nat),
        ∀ e ∈ (stepTarget render kws cfg st u d).queue,
          e ∈ st.queue ∨ ((d : Int) < cfg.maxDepth ∧ e.2 = d + 1)) := by
  refine ⟨?_, ?_, stepTarget_queue_new⟩
  · intro render kws cfg s fuel
    exact crawlLoop_rendered_depth render kws cfg fuel _ (by simp [initState])
  · intro render kws cfg s fuel r hr
    rw [crawl_with_score_criteria] at hr
    obtain ⟨dd, hdd⟩ := crawlLoop_collected_rendered render kws cfg fuel _
      (by simp [initState]) r (mem_sortByScoreDesc.mp hr)
    exact ⟨dd, hdd,
      crawlLoop_rendered_depth render kws cfg fuel _ (by simp [initState]) (r.url, dd) hdd⟩

/-- Witness for C6: the rendered-depth bound at a concrete rendered target. -/
theorem C6_witness : ((("https://a.com/p1".data, (1 : Nat)).2 : Int)) ≤ cfg1.maxDepth :=
  C6_depth_bound.1 render1 kws1 cfg1 "https://a.com".data 5 ("https://a.com/p1".data, 1)
    (by rw [scenario1_final]; decide)

/-- C8: no returned PageRecord scores below `min_score`: a record is created,
appended and accumulated only when its score passes the floor. -/
theorem C8_no_record_below_min (render : Render) (kws : List (List Char)) (cfg : CrawlConfig)
    (s : List Char) (fuel : Nat) :
    ∀ r ∈ crawl_with_score_criteria render kws cfg s fuel,
      (r.relevance_score : Int) ≥ cfg.minScore := by
  intro r hr
  rw [crawl_with_score_criteria] at hr
  exact crawlLoop_minScore render kws cfg fuel _ (by simp [initState]) r
    (mem_sortByScoreDesc.mp hr)

/-- Witness for C8: the floor applied to a record of the §8 scenario. -/
theorem C8_witness : ((pd90.relevance_score : Int)) ≥ cfg1.minScore :=
  C8_no_record_below_min render1 kws1 cfg1 "https://a.com".data 5 pd90
    (by rw [scenario1_records]; exact List.mem_cons_self _ _)

/-- C9: a renderer failure (navigation error/timeout/exception, modelled
`none`) or an invalid page is non-fatal: the target is dropped without retry,
the visited set (and the goto trace) are the only state changed, and the loop
continues; the loop ends only on frontier exhaustion or the stop flag; a
failure acquiring the render context itself surfaces as an empty result. -/
theorem C9_failures_nonfatal :
    (∀ (render : Render) (kws : List (List Char)) (cfg : CrawlConfig) (st : CrawlState)
        (u : List Char) (d : Nat), u ∉ st.visited → ¬ (d : Int) > cfg.maxDepth →
        normalize_url cfg.baseUrl u ≠ [] →
        render (normalize_url cfg.baseUrl u) = none →
        stepTarget render kws cfg st u d =
          { st with visited := pyInsert st.visited (normalize_url cfg.baseUrl u),
                    rendered := st.rendered ++ [(normalize_url cfg.baseUrl u, d)] })
  ∧ (∀ (render : Render) (kws : List (List Char)) (cfg : CrawlConfig) (st : CrawlState)
        (u : List Char) (d : Nat) (page : Page), u ∉ st.visited →
        ¬ (d : Int) > cfg.maxDepth → normalize_url cfg.baseUrl u ≠ [] →
        render (normalize_url cfg.baseUrl u) = some page → page.valid = false →
        stepTarget render kws cfg st u d =
          { st with visited := pyInsert st.visited (normalize_url cfg.baseUrl u),
                    rendered := st.rendered ++ [(normalize_url cfg.baseUrl u, d)] })
  ∧ (∀ (render : Render) (kws : List (List Char)) (cfg : CrawlConfig) (fuel : Nat)
        (st : CrawlState), st.queue = [] → crawlLoop render kws cfg fuel st = st)
  ∧ (∀ (render : Render) (kws : List (List Char)) (cfg : CrawlConfig) (fuel : Nat)
        (st : CrawlState), st.stop = true → crawlLoop render kws cfg fuel st = st)
  ∧ (∀ (render : Render) (kws : List (List Char)) (cfg : CrawlConfig) (st : CrawlState)
        (u : List Char) (d : Nat) (rest : List (List Char × Nat)) (fuel : Nat),
        st.stop = false → st.queue = (u, d) :: rest →
        crawlLoop render kws cfg (fuel + 1) st =
          crawlLoop render kws cfg fuel
            (stepTarget render kws cfg { st with queue := rest } u d))
  ∧ (∀ (kws : List (List Char)) (cfg : CrawlConfig) (s : List Char) (fuel : Nat),
        scrape_with_cumulative_score none kws cfg s fuel = []) :=
  ⟨fun _ _ _ _ _ _ h1 h2 h3 h4 => stepTarget_fail h1 h2 h3 h4,
   fun _ _ _ _ _ _ _ h1 h2 h3 h4 h5 => stepTarget_invalid h1 h2 h3 h4 h5,
   fun _ _ _ fuel _ h => crawlLoop_empty h fuel,
   fun _ _ _ fuel _ h => crawlLoop_stop h fuel,
   fun _ _ _ _ _ _ _ fuel hs hq => crawlLoop_step hs hq fuel,
   fun _ _ _ _ => rfl⟩

/-- Witness for C9: a failing renderer on the seed leaves everything but the
visited set and the goto trace unchanged. -/
theorem C9_witness :
    stepTarget (fun _ => none) kws1 cfg1 ⟨[], [], [], 0, false, []⟩
        "https://a.com".data 0 =
      { (⟨[], [], [], 0, false, []⟩ : CrawlState) with
          visited := pyInsert [] (normalize_url cfg1.baseUrl "https://a.com".data),
          rendered := [] ++ [(normalize_url cfg1.baseUrl "https://a.com".data, 0)] } :=
  C9_failures_nonfatal.1 (fun _ => none) kws1 cfg1 ⟨[], [], [], 0, false, []⟩
    "https://a.com".data 0 (by decide) (by decide) (by decide) rfl
